import Mathlib

/-!
Shallow embedding of the studyrag-backend background job queue
(`src/src/utils/logger.js`, jobQueue segment) and the paged similarity
engine (`src/src/services/vectorService.js`, paged version), together
with theorems settling the frozen claims about them.

Modelling conventions:
* JavaScript numbers that the program only ever uses as integers
  (attempt counters, retry ceilings, page sizes) are modelled as `Nat`/`Int`;
  job progress as `ℚ` (exact). Vector components are modelled as `ℤ`:
  JS float embeddings are rationals, and multiplying one vector by a
  positive constant (e.g. a common denominator) scales its dot products
  and its squared magnitude consistently, so it changes no cosine score,
  no validity test and no score comparison anywhere in the pipeline —
  every float corpus is observationally equal to an integer one.
* A JS value that may be `null`/`undefined`/non-numeric is an `Option`;
  the JS fallback idiom `Number(x) || d` (which also replaces `0` by `d`,
  since `0` is falsy) is modelled by the `jsOr*` helpers below.
* JS string truthiness (`""` is falsy) is modelled by `strTruthy`.
* Job ids (`job_<ts>_<seq>`) and chunk ids (uuids) are modelled as `Nat`;
  the SQL `ORDER BY id ASC` order of the chunks table is modelled by
  keeping the table list in id order.
-/

namespace StudyRag

/-- JS `Number(x) || d` on a column holding a natural number
(`none` models a non-numeric value, whose `Number` is `NaN`, falsy). -/
def jsOrNat : Option Nat → Nat → Nat
  | none, d => d
  | some 0, d => d
  | some (Nat.succ k), _ => Nat.succ k

/-- JS `Number(x) || d` on an integer-valued argument. -/
def jsOrInt : Option Int → Int → Int
  | none, d => d
  | some v, d => if v = 0 then d else v

/-- JS `Number(x) || d` on a rational-valued argument. -/
def jsOrQ : Option ℚ → ℚ → ℚ
  | none, d => d
  | some v, d => if v = 0 then d else v

/-- JS truthiness of a nullable string (`null`, `undefined` and `""` are falsy). -/
def strTruthy : Option String → Bool
  | none => false
  | some s => decide (s ≠ "")

/-- JS `a || b` on nullable strings. -/
def jsStrOr (a b : Option String) : Option String :=
  if strTruthy a then a else b

/-- JS `a || null` on a nullable string. -/
def jsStrOrNone (a : Option String) : Option String :=
  if strTruthy a then a else none

/-- The clamp `Math.max(0, Math.min(100, q))` used for job progress. -/
def clamp0100 (q : ℚ) : ℚ := max 0 (min 100 q)

/-! ## Job queue data model (`src/src/utils/logger.js`, jobQueue segment) -/

/-- Job lifecycle status (the `status` column / field). -/
inductive JStatus
  | queued
  | processing
  | completed
  | failed
deriving DecidableEq

/-- Job type (`indexPdf` / `chatQuery`; `unknownType` models any other value,
including the `undefined` type of a payload that failed to parse). -/
inductive JType
  | indexPdf
  | chatQuery
  | unknownType
deriving DecidableEq

/-- The enqueue payload, abstracted to the fields the queue itself reads:
its `type` and its optional `maxRetries` (`none` models an absent or
non-integer value, rejected by `Number.isInteger`). -/
structure JobPayload where
  type : JType
  maxRetries : Option Int
deriving DecidableEq

/-- The `{}` fallback used when a persisted payload fails to `JSON.parse`. -/
def emptyPayload : JobPayload := ⟨.unknownType, none⟩

/-- An in-memory job record (the objects held in the module-level `jobs` map). -/
structure Job where
  id : Nat
  type : JType
  payload : JobPayload
  status : JStatus
  progress : ℚ
  stage : Option String
  attempts : Nat
  maxRetries : Nat
  createdAt : String
  updatedAt : String
  result : Option String
  error : Option String
deriving DecidableEq

/-- A durable `job_queue` row. `attempts`/`maxRetries`/`progress` are optional
to model columns whose value is absent or non-numeric when read back;
`payload := none` models a payload column that fails to `JSON.parse`. -/
structure JobRow where
  id : Nat
  type : JType
  payload : Option JobPayload
  status : JStatus
  progress : Option ℚ
  stage : Option String
  attempts : Option Nat
  maxRetries : Option Nat
  result : Option String
  error : Option String
  createdAt : String
  updatedAt : String
deriving DecidableEq

/-- The row written by `persistJob`: progress is re-clamped
(`Math.max(0, Math.min(100, Number(job.progress) || 0))`), stage is
`job.stage || null`, the other fields are copied. -/
def persistRow (job : Job) : JobRow where
  id := job.id
  type := job.type
  payload := some job.payload
  status := job.status
  progress := some (clamp0100 (jsOrQ (some job.progress) 0))
  stage := jsStrOrNone job.stage
  attempts := some job.attempts
  maxRetries := some job.maxRetries
  result := job.result
  error := job.error
  createdAt := job.createdAt
  updatedAt := job.updatedAt

/-- `hydrateJobFromRow(row)`: rebuilds an in-memory job from a durable row.
`processing` rows come back as `queued`; `attempts` falls back to `0` and
`maxRetries` to `3` under `Number(x) || d`; progress is clamped;
`updatedAt` is set to the current time. -/
def hydrateJobFromRow (row : JobRow) (nowIso : String) : Job where
  id := row.id
  type := row.type
  payload := row.payload.getD emptyPayload
  status := if row.status = .processing then .queued else row.status
  progress := clamp0100 (jsOrQ row.progress 0)
  stage := jsStrOrNone row.stage
  attempts := jsOrNat row.attempts 0
  maxRetries := jsOrNat row.maxRetries 3
  createdAt := row.createdAt
  updatedAt := nowIso
  result := row.result
  error := jsStrOrNone row.error

/-- `getDefaultStageByType(type)`. -/
def getDefaultStageByType : JType → Option String
  | .indexPdf => some "uploading"
  | .chatQuery => some "retrieving"
  | .unknownType => none

/-- `Number.isInteger(payload.maxRetries) && payload.maxRetries >= 0
? payload.maxRetries : 3` from `addJob`. -/
def normalizeMaxRetries : Option Int → Nat
  | none => 3
  | some k => if 0 ≤ k then k.toNat else 3

/-- The fresh job record built by `addJob` before persisting. -/
def mkNewJob (payload : JobPayload) (jobId : Nat) (nowIso : String) : Job where
  id := jobId
  type := payload.type
  payload := payload
  status := .queued
  progress := 0
  stage := getDefaultStageByType payload.type
  attempts := 0
  maxRetries := normalizeMaxRetries payload.maxRetries
  createdAt := nowIso
  updatedAt := nowIso
  result := none
  error := none

/-- A progress report `{progress, stage}` delivered by a task runner
(`progress := none` models a non-numeric value). -/
structure ProgressReport where
  progress : Option ℚ
  stage : Option String

/-- Result of `updateJobProgress`: the mutated job, and whether a durable
write was issued (`false` exactly on the early `if (!didChange) return true`). -/
structure ProgressUpdate where
  job : Job
  issuedWrite : Bool

/-- `updateJobProgress(job, {progress, stage})`: clamp the reported progress,
normalize the stage through the `stage || job.stage || default` chain,
mutate the job, and issue a durable write only if either field changed. -/
def updateJobProgress (job : Job) (r : ProgressReport) (nowIso : String) : ProgressUpdate :=
  let normalizedProgress := clamp0100 (jsOrQ r.progress 0)
  let normalizedStage := jsStrOr r.stage (jsStrOr job.stage (getDefaultStageByType job.type))
  let didChange : Bool := decide (job.progress ≠ normalizedProgress) ||
    decide (job.stage ≠ normalizedStage)
  let job1 := { job with progress := normalizedProgress, stage := normalizedStage }
  if didChange then
    { job := { job1 with updatedAt := nowIso }, issuedWrite := true }
  else
    { job := job1, issuedWrite := false }

/-! ## Queue Manager state and public operations -/

/-- The module-level mutable state of the Queue Manager: the ready list
(`queue`, a list of job ids), the in-memory job map (`jobs`, a JS `Map`,
modelled as an insertion-ordered association list), and the durable
`job_queue` table (`durable`, keyed by `JobRow.id`). -/
structure QState where
  queue : List Nat
  jobs : List (Nat × Job)
  durable : List JobRow
deriving DecidableEq

/-- Lookup in the in-memory job map (`jobs.get(id)`). -/
def lookupJob : List (Nat × Job) → Nat → Option Job
  | [], _ => none
  | (k, j) :: rest, i => if k = i then some j else lookupJob rest i

/-- Lookup of a durable row by primary key (`selectJobByIdStmt.get(id)`). -/
def lookupRow : List JobRow → Nat → Option JobRow
  | [], _ => none
  | r :: rest, i => if r.id = i then some r else lookupRow rest i

/-- JS `Map.set`: update in place if the key exists, else append. -/
def mapSet : List (Nat × Job) → Nat → Job → List (Nat × Job)
  | [], k, v => [(k, v)]
  | (k0, v0) :: rest, k, v =>
    if k0 = k then (k0, v) :: rest else (k0, v0) :: mapSet rest k v

/-- JS `Map.delete`. -/
def mapDelete (m : List (Nat × Job)) (k : Nat) : List (Nat × Job) :=
  m.filter fun kv => decide (kv.1 ≠ k)

/-- `getJob(jobId)`: in-memory lookup first, then the durable-store fallback,
which hydrates the row but restores the row's own `status` and `updatedAt`. -/
def getJob (s : QState) (jobId : Nat) (nowIso : String) : Option Job :=
  match lookupJob s.jobs jobId with
  | some j => some j
  | none =>
    match lookupRow s.durable jobId with
    | none => none
    | some row =>
      let hydrated := hydrateJobFromRow row nowIso
      some { hydrated with status := row.status, updatedAt := row.updatedAt }

/-- `Array.from(jobs.values()).some(candidate => candidate.status === 'processing')`. -/
def hasProcessingJob (s : QState) : Bool :=
  s.jobs.any fun kv => decide (kv.2.status = .processing)

/-- JS `Array.prototype.indexOf`: index of the first occurrence
(`none` models the `-1` not-found result). -/
def jsIndexOf : List Nat → Nat → Option Nat
  | [], _ => none
  | y :: ys, x => if y = x then some 0 else (jsIndexOf ys x).map (· + 1)

/-- `getQueuePosition(jobId)`: `none` for an unknown id; `0` when the job is
not queued or not in the ready list; otherwise its ready-list index plus one
if some in-memory job is currently processing. -/
def getQueuePosition (s : QState) (jobId : Nat) (nowIso : String) : Option Nat :=
  match getJob s jobId nowIso with
  | none => none
  | some job =>
    if job.status ≠ .queued then some 0
    else
      match jsIndexOf s.queue jobId with
      | none => some 0
      | some i => some (i + (if hasProcessingJob s then 1 else 0))

/-- The 5xx error thrown by `addJob` when the durable insert fails. -/
structure HttpErr where
  statusCode : Nat
  message : String
deriving DecidableEq

/-- `addJob(payload)` (its synchronous part): build the fresh job, put it in
the in-memory map, attempt the durable insert (`persistOk` abstracts the
outcome of `insertJobStmt.run`); on failure remove the in-memory entry and
fail with a 500, on success append to the ready list and to the durable
table. The asynchronous `processQueue()` kick is not part of this state
transition. -/
def addJob (s : QState) (payload : JobPayload) (newId : Nat) (persistOk : Bool)
    (nowIso : String) : QState × Except HttpErr Job :=
  let job := mkNewJob payload newId nowIso
  let jobs1 := mapSet s.jobs newId job
  if persistOk then
    ({ s with
        jobs := jobs1
        queue := s.queue ++ [newId]
        durable := s.durable ++ [persistRow job] },
     .ok job)
  else
    ({ s with jobs := mapDelete jobs1 newId },
     .error ⟨500, "Failed to enqueue background job."⟩)

/-! ## Worker loop transitions (`processQueue`) -/

/-- The mutation applied to a job dequeued by `processQueue`: status becomes
`processing`, `attempts` is incremented, and the type-specific floor is
applied to progress/stage (`job.progress || 0` is the identity on a `ℚ`
progress value, since the only falsy rational is `0` and `max 0 5 = 5`). -/
def beginAttemptJob (j : Job) (nowIso : String) : Job :=
  let j1 := { j with status := JStatus.processing, updatedAt := nowIso,
                     attempts := j.attempts + 1 }
  match j.type with
  | .indexPdf => { j1 with progress := max j1.progress 5, stage := some "parsing" }
  | .chatQuery => { j1 with progress := max j1.progress 10, stage := some "retrieving" }
  | .unknownType => j1

/-- The `catch` branch common prefix: record the error message. -/
def failUpdateJob (j : Job) (msg : String) (nowIso : String) : Job :=
  { j with error := some msg, updatedAt := nowIso }

/-- The retryable-failure mutation (`attempts <= maxRetries` branch):
back to `queued`, default stage, progress reset to `0`. -/
def retryJob (j : Job) : Job :=
  { j with status := JStatus.queued, stage := getDefaultStageByType j.type,
           progress := 0 }

/-- The success mutation: `completed`, progress `100`, result recorded. -/
def completeJob (j : Job) (res : String) (nowIso : String) : Job :=
  { j with status := JStatus.completed, progress := 100, result := some res,
           updatedAt := nowIso }

/-- The terminal-failure mutation (`attempts > maxRetries` branch):
`failed`, with the `Math.max(job.progress || 0, 0)` progress rewrite. -/
def failJob (j : Job) : Job :=
  { j with status := JStatus.failed, progress := max j.progress 0 }

/-- Execution of a job whose task runner throws on every attempt, assuming
every durable write succeeds: repeatedly dequeue (`beginAttemptJob`), fail,
and either retry after a backoff of `250 * 2 ^ (attempts - 1)` milliseconds
or fail terminally once `attempts > maxRetries`. Returns the final job and
the list of backoff delays, in order. `fuel` bounds the number of attempts;
the theorems apply it with enough fuel to reach the terminal state. -/
def runAllFail (msg nowIso : String) : Job → Nat → Job × List Nat
  | j, 0 => (j, [])
  | j, fuel + 1 =>
    let j1 := failUpdateJob (beginAttemptJob j nowIso) msg nowIso
    if j1.attempts ≤ j1.maxRetries then
      let b := 250 * 2 ^ (j1.attempts - 1)
      let rest := runAllFail msg nowIso (retryJob j1) fuel
      (rest.1, b :: rest.2)
    else
      (failJob j1, [])

/-- Crash recovery of a single job: the durable image of the job (written by
the last successful `persistJob`) is reloaded by `recoverJobsFromDatabase`
through `hydrateJobFromRow`, then the `if (!job.stage)` and progress fixups
are applied. -/
def recoverHydrate (j : Job) (nowIso : String) : Job :=
  let h := hydrateJobFromRow (persistRow j) nowIso
  if strTruthy h.stage then h else { h with stage := getDefaultStageByType h.type }

/-- Single-job transition relation of the Queue Manager. Constructors mirror
the transitions of `processQueue` (dequeue, completion, retryable failure,
terminal failure, the two persistence-failure forcings) plus crash recovery
of a durable `queued` or `processing` row. The flag selects whether recovery
of an interrupted `processing` row is allowed (it is, in the code:
`selectRecoverableJobsStmt` selects both statuses). -/
inductive JStep (allowProcRecover : Bool) : Job → Job → Prop
  | begin (j : Job) (now : String) :
      j.status = .queued → JStep allowProcRecover j (beginAttemptJob j now)
  | beginPersistFail (j : Job) (now : String) :
      j.status = .queued →
      JStep allowProcRecover j
        { beginAttemptJob j now with
            status := JStatus.failed
            progress := max (beginAttemptJob j now).progress 0
            error := some "Failed to persist processing status."
            updatedAt := now }
  | complete (j : Job) (res now : String) :
      j.status = .processing → JStep allowProcRecover j (completeJob j res now)
  | failRetry (j : Job) (msg now : String) :
      j.status = .processing → j.attempts ≤ j.maxRetries →
      JStep allowProcRecover j (retryJob (failUpdateJob j msg now))
  | retryPersistFail (j : Job) (msg now : String) :
      j.status = .processing → j.attempts ≤ j.maxRetries →
      JStep allowProcRecover j
        { retryJob (failUpdateJob j msg now) with
            status := JStatus.failed
            progress := max (retryJob (failUpdateJob j msg now)).progress 0
            error := some "Failed to persist retry state."
            updatedAt := now }
  | failTerminal (j : Job) (msg now : String) :
      j.status = .processing → j.maxRetries < j.attempts →
      JStep allowProcRecover j (failJob (failUpdateJob j msg now))
  | recoverQueued (j : Job) (now : String) :
      j.status = .queued → JStep allowProcRecover j (recoverHydrate j now)
  | recoverProcessing (j : Job) (now : String) :
      allowProcRecover = true → j.status = .processing →
      JStep allowProcRecover j (recoverHydrate j now)

/-! ## Similarity Engine (`src/src/services/vectorService.js`, paged version)

The code computes scores as JS floats: `dot / (Math.sqrt(magA) * Math.sqrt(magB))`,
with `-1` as the sentinel for invalid inputs. We represent a score exactly,
without losing computability to `Real.sqrt`, by the pair of its numerator
and the product of the two squared magnitudes: `SimScore.val dot mag` stands for the real
number `dot / Real.sqrt mag` (note `√magA * √magB = √(magA*magB)`), and
`SimScore.invalid` stands for `-1`. `SimScore.nonneg` and `SimScore.leb`
compute the sign and the order of the represented real numbers; the bridge
lemmas `SimScore.nonneg_iff_toReal` and `SimScore.leb_iff_toReal` below
prove this encoding correct. -/

/-- Exact representation of a similarity score, see the section comment. -/
inductive SimScore
  | invalid
  | val (dot : ℤ) (mag : ℤ)
deriving DecidableEq

/-- Real number represented by a score (for `val`, under the convention
`mag > 0`, which holds for every score the code constructs). -/
noncomputable def SimScore.toReal : SimScore → ℝ
  | .invalid => -1
  | .val d m => (d : ℝ) / Real.sqrt (m : ℝ)

/-- The `score >= 0` test of the result filters. -/
def SimScore.nonneg : SimScore → Bool
  | .invalid => false
  | .val d _ => decide (0 ≤ d)

/-- Decidable order on represented scores (`a ≤ b`), used to model the
stable sort with comparator `(a, b) => b.score - a.score`. -/
def SimScore.leb : SimScore → SimScore → Bool
  | .invalid, .invalid => true
  | .invalid, .val d m => decide (0 ≤ d) || decide (d * d ≤ m)
  | .val d m, .invalid => decide (d < 0) && decide (m ≤ d * d)
  | .val d1 m1, .val d2 m2 =>
    if 0 ≤ d1 then decide (0 ≤ d2) && decide (d1 * d1 * m2 ≤ d2 * d2 * m1)
    else if 0 ≤ d2 then true
    else decide (d2 * d2 * m1 ≤ d1 * d1 * m2)

/-- A row of the `chunks` table. `embedding` holds the serialized vector
payload, abstracted by `EmbPayload`; `embeddingVectorLength` is the
redundant dimensionality column, which (as in the database) may disagree
with the payload. -/
inductive EmbPayload
  | arr (v : List ℤ)
  | nonArray
  | malformed
deriving DecidableEq

structure ChunkRow where
  id : Nat
  sessionId : String
  pdfId : Option String
  chunkKey : String
  text : String
  embedding : EmbPayload
  embeddingVectorLength : Nat
  createdAt : String
deriving DecidableEq

/-- Inner level of the vector cache: an insertion-ordered map
`chunkId → parsed vector` (a JS `Map`). -/
abbrev ChunkCache := List (Nat × List ℤ)

/-- Outer level: insertion-ordered map `normalized pdf key → ChunkCache`
(the module-level `embeddingCacheByPdf`). -/
abbrev EmbCache := List (String × ChunkCache)

def MAX_PDF_CACHE_ENTRIES : Nat := 64
def MAX_CHUNK_CACHE_ENTRIES_PER_PDF : Nat := 200

/-- `String(pdfId || 'unknown')`. -/
def normPdfId : Option String → String
  | none => "unknown"
  | some s => if s = "" then "unknown" else s

def cacheLookup : EmbCache → String → Option ChunkCache
  | [], _ => none
  | (k, v) :: rest, key => if k = key then some v else cacheLookup rest key

def cacheErase (c : EmbCache) (key : String) : EmbCache :=
  c.filter fun e => decide (e.1 ≠ key)

def chunkLookup : ChunkCache → Nat → Option (List ℤ)
  | [], _ => none
  | (k, v) :: rest, key => if k = key then some v else chunkLookup rest key

def chunkErase (c : ChunkCache) (key : Nat) : ChunkCache :=
  c.filter fun e => decide (e.1 ≠ key)

/-- The `while (size > cap) delete oldest` eviction loops: a JS `Map`
iterates in insertion order, so they drop entries from the front until the
size is within the cap. -/
def trimToCap {α : Type} (cap : Nat) (l : List α) : List α :=
  l.drop (l.length - cap)

/-- `setPdfChunkCache(pdfId, chunkId, vector)`: move (or create) the
per-document map at the back of the outer map, re-insert the chunk entry at
the back of the per-document map, then apply both eviction loops. -/
def setPdfChunkCache (cache : EmbCache) (pdfId : Option String) (chunkId : Nat)
    (vector : List ℤ) : EmbCache :=
  let key := normPdfId pdfId
  let pdfCache := (cacheLookup cache key).getD []
  let pdfCache1 :=
    trimToCap MAX_CHUNK_CACHE_ENTRIES_PER_PDF
      (chunkErase pdfCache chunkId ++ [(chunkId, vector)])
  trimToCap MAX_PDF_CACHE_ENTRIES (cacheErase cache key ++ [(key, pdfCache1)])

/-- `getCachedVector(pdfId, chunkId)`: `none` on a miss; on a hit, return the
vector and the cache with both levels touched (moved to the back). -/
def getCachedVector (cache : EmbCache) (pdfId : Option String) (chunkId : Nat) :
    Option (List ℤ) × EmbCache :=
  let key := normPdfId pdfId
  match cacheLookup cache key with
  | none => (none, cache)
  | some pdfCache =>
    match chunkLookup pdfCache chunkId with
    | none => (none, cache)
    | some v =>
      let pdfCache1 := chunkErase pdfCache chunkId ++ [(chunkId, v)]
      (some v, cacheErase cache key ++ [(key, pdfCache1)])

/-- `invalidatePdfCache(pdfId)`. -/
def invalidatePdfCache (cache : EmbCache) (pdfId : Option String) : EmbCache :=
  cacheErase cache (normPdfId pdfId)

/-- The accumulating loop of `cosineSimilarity` computes `dot`, `magA`,
`magB`; `dotProd` is that loop's accumulator for a pair of lists
(the loop runs over indices of `a`, and both lists have equal length
whenever it runs). -/
def dotProd : List ℤ → List ℤ → ℤ
  | a :: as, b :: bs => a * b + dotProd as bs
  | _, _ => 0

/-- `cosineSimilarity(a, b)`: `-1` (here `.invalid`) when either argument is
not an array (`none`), the lengths differ, or a magnitude is zero; otherwise
the exact encoding of `dot / (sqrt magA * sqrt magB)`. -/
def cosineSimilarity (a b : Option (List ℤ)) : SimScore :=
  match a, b with
  | some a, some b =>
    if a.length ≠ b.length then .invalid
    else
      let dot := dotProd a b
      let magA := dotProd a a
      let magB := dotProd b b
      if magA = 0 ∨ magB = 0 then .invalid
      else .val dot (magA * magB)
  | _, _ => .invalid

/-- `parseVectorForChunk(chunk)`: consult the cache (any cached array,
even an empty one, is truthy and is returned); on a miss, parse the payload,
cache an array result, and return `none` for a non-array or unparseable
payload. Returns the vector (if any) together with the updated cache. -/
def parseVectorForChunk (cache : EmbCache) (chunk : ChunkRow) :
    Option (List ℤ) × EmbCache :=
  match getCachedVector cache chunk.pdfId chunk.id with
  | (some v, cache1) => (some v, cache1)
  | (none, cache1) =>
    match chunk.embedding with
    | .arr v => (some v, setPdfChunkCache cache1 chunk.pdfId chunk.id v)
    | .nonArray => (none, cache1)
    | .malformed => (none, cache1)

/-- A scored search result `{chunkId, pdfId, text, score}`. -/
structure SearchItem where
  chunkId : Nat
  pdfId : Option String
  text : String
  score : SimScore
deriving DecidableEq

/-- Stable insertion for a descending sort: the new item goes after every
already-placed item whose score is at least its own (first-seen wins on
ties, as JS `Array.prototype.sort` is stable). -/
def insertByScoreDesc (x : SearchItem) : List SearchItem → List SearchItem
  | [] => [x]
  | y :: ys =>
    if SimScore.leb x.score y.score then y :: insertByScoreDesc x ys
    else x :: y :: ys

/-- The stable sort `.sort((a, b) => b.score - a.score)`. -/
def sortByScoreDesc (l : List SearchItem) : List SearchItem :=
  l.foldl (fun acc x => insertByScoreDesc x acc) []

/-- `mergeTopK(existing, next, topK)`: concatenate, keep the valid
(`score >= 0`; the `item &&` null test and the `Number.isFinite` test are
vacuous here since items are non-null and scores exact), sort descending,
truncate to `topK`. -/
def mergeTopK (existing next : List SearchItem) (topK : Nat) : List SearchItem :=
  (sortByScoreDesc ((existing ++ next).filter fun item => item.score.nonneg)).take topK

/-- `countChunksBySessionStmt`: `COUNT(*) WHERE sessionId = ?`
(no dimensionality filter). -/
def countChunksBySession (table : List ChunkRow) (sessionId : String) : Nat :=
  (table.filter fun c => decide (c.sessionId = sessionId)).length

/-- `selectChunkPageBySessionStmt`: `WHERE sessionId = ? AND
embeddingVectorLength = ? ORDER BY id ASC LIMIT ? OFFSET ?`. The table list
is kept in id order, so the page is a drop/take of the filtered list. -/
def pageSelect (table : List ChunkRow) (sessionId : String) (vecLen : Nat)
    (limit offset : Nat) : List ChunkRow :=
  ((table.filter fun c =>
      decide (c.sessionId = sessionId) && decide (c.embeddingVectorLength = vecLen)).drop
    offset).take limit

/-- The per-page `rows.map(...).filter(...)` body: parse each row's vector
(threading the cache), score it against the query, drop the nulls and the
invalid or negative scores. -/
def scorePage (query : List ℤ) : List ChunkRow → EmbCache → List SearchItem × EmbCache
  | [], cache => ([], cache)
  | row :: rest, cache =>
    let parsed := parseVectorForChunk cache row
    let tailRes := scorePage query rest parsed.2
    match parsed.1 with
    | none => tailRes
    | some v =>
      let item : SearchItem :=
        ⟨row.id, row.pdfId, row.text, cosineSimilarity (some query) (some v)⟩
      if item.score.nonneg then (item :: tailRes.1, tailRes.2) else tailRes

/-- The `while (offset < totalRows)` page loop of `similaritySearch`:
fetch a page, stop on an empty page, otherwise score it, merge into the
running top-K and advance the offset by the page length. `fuel` dominates
the iteration count (each iteration advances `offset` by at least one, so
`totalRows + 1` fuel is always enough); the cooperative yield between pages
has no effect on the result. -/
def searchLoop (table : List ChunkRow) (sessionId : String) (query : List ℤ)
    (topK pageSize totalRows : Nat) :
    Nat → Nat → List SearchItem → EmbCache → List SearchItem × EmbCache
  | 0, _, best, cache => (best, cache)
  | fuel + 1, offset, best, cache =>
    if offset < totalRows then
      let rows := pageSelect table sessionId query.length pageSize offset
      if rows.length = 0 then (best, cache)
      else
        let scored := scorePage query rows cache
        searchLoop table sessionId query topK pageSize totalRows
          fuel (offset + rows.length) (mergeTopK best scored.1 topK) scored.2
    else (best, cache)

/-- `Math.max(1, Math.min(5, Number(topK) || 5))` (callers pass integers;
`none` models a non-numeric argument, and `0` is falsy). -/
def normalizeTopK (topK : Option Int) : Int :=
  max 1 (min 5 (jsOrInt topK 5))

/-- `Math.max(50, Math.min(1000, Number(pageSize) || 400))`. -/
def normalizePageSize (pageSize : Option Int) : Int :=
  max 50 (min 1000 (jsOrInt pageSize 400))

/-- Arguments of `similaritySearch` (`queryEmbedding := none` models a
non-array argument, giving `queryVectorLength = 0`). -/
structure SearchArgs where
  sessionId : String
  queryEmbedding : Option (List ℤ)
  topK : Option Int
  pageSize : Option Int

/-- `similaritySearch({sessionId, queryEmbedding, topK, pageSize})` over a
given chunks table and vector cache: clamp `topK`/`pageSize`, return `[]`
immediately for an empty/invalid query vector or an empty session corpus,
otherwise run the page loop and return the final sorted, truncated top-K
(together with the cache as left by the scan). The `onProgress` callback
only reports counters and is not modelled. -/
def similaritySearch (table : List ChunkRow) (cache : EmbCache) (args : SearchArgs) :
    List SearchItem × EmbCache :=
  let normalizedTopK := (normalizeTopK args.topK).toNat
  let normalizedPageSize := (normalizePageSize args.pageSize).toNat
  let totalRows := countChunksBySession table args.sessionId
  match args.queryEmbedding with
  | none => ([], cache)
  | some q =>
    if q.length = 0 ∨ totalRows = 0 then ([], cache)
    else
      let scan := searchLoop table args.sessionId q normalizedTopK normalizedPageSize
        totalRows (totalRows + 1) 0 [] cache
      ((sortByScoreDesc scan.1).take normalizedTopK, scan.2)

/-! ## Indexing (`addChunks`) -/

/-- One element of the `items` argument of `addChunks`
(`embedding := none` models a non-array embedding, replaced by `[]`). -/
structure ChunkItem where
  chunkKey : Option String
  text : String
  embedding : Option (List ℤ)
deriving DecidableEq

/-- The template-literal fallback key `` `${pdfId || 'pdf'}:${index}` ``. -/
def defaultChunkKey (pdfId : Option String) (index : Nat) : String :=
  (match pdfId with
   | some s => if s = "" then "pdf" else s
   | none => "pdf") ++ ":" ++ toString index

/-- The rows built by the insert loop of `addChunks`: fresh ids are drawn
from `newIds` (modelling `uuidv4()`), `chunkKey` falls back to the default
key via `String(row.chunkKey || ...)`, a non-array embedding becomes `[]`,
and the dimensionality column records the stored array's length. -/
def buildChunkRows (sessionId : String) (pdfId : Option String) (nowIso : String) :
    List ChunkItem → List Nat → Nat → List ChunkRow
  | item :: items, newId :: ids, index =>
    let embedding := item.embedding.getD []
    { id := newId
      sessionId := sessionId
      pdfId := pdfId
      chunkKey :=
        match item.chunkKey with
        | some s => if s = "" then defaultChunkKey pdfId index else s
        | none => defaultChunkKey pdfId index
      text := item.text
      embedding := .arr embedding
      embeddingVectorLength := embedding.length
      createdAt := nowIso } :: buildChunkRows sessionId pdfId nowIso items ids (index + 1)
  | _, _, _ => []

/-- SQLite `INSERT OR REPLACE` keyed on the primary key `id`. -/
def insertOrReplaceChunk (table : List ChunkRow) (row : ChunkRow) : List ChunkRow :=
  table.filter (fun c => decide (c.id ≠ row.id)) ++ [row]

/-- `DELETE FROM chunks WHERE pdfId = ?` (`NULL` rows never match). -/
def deleteChunksByPdf (table : List ChunkRow) (pdfId : Option String) : List ChunkRow :=
  table.filter fun c => decide (c.pdfId ≠ pdfId)

/-- The chunks table together with the process-local vector cache. -/
structure ChunkStore where
  table : List ChunkRow
  cache : EmbCache

/-- `addChunks({sessionId, pdfId, items, replacePdfChunks})`: inside one
transaction, when the replace flag is set and `pdfId` is truthy, drop the
document's cache entry and delete its rows, then insert the new rows;
returns the item count. -/
def addChunks (store : ChunkStore) (sessionId : String) (pdfId : Option String)
    (items : List ChunkItem) (replacePdfChunks : Bool) (newIds : List Nat)
    (nowIso : String) : ChunkStore × Nat :=
  let store1 :=
    if replacePdfChunks && strTruthy pdfId then
      { table := deleteChunksByPdf store.table pdfId
        cache := invalidatePdfCache store.cache pdfId }
    else store
  let rows := buildChunkRows sessionId pdfId nowIso items newIds 0
  ({ table := rows.foldl insertOrReplaceChunk store1.table, cache := store1.cache },
   items.length)

/-- Number of stored vector rows owned by a document
(`SELECT COUNT(*) FROM chunks WHERE pdfId = ?`). -/
def countRowsForPdf (table : List ChunkRow) (p : String) : Nat :=
  (table.filter fun c => decide (c.pdfId = some p)).length

/-! ## Concrete instances used by the claims -/

/-- Query vector of the 360-vector multi-page search scenario. -/
def c3Query : List ℤ := [1, 0]

/-- The `i`-th inserted vector of that scenario: `[i+1, 1]`, whose cosine
score against `[1, 0]` is `(i+1) / sqrt((i+1)^2 + 1)`, strictly increasing
in `i` — so the 360th inserted vector (id `359`) is the unique best. -/
def c3Chunk (i : Nat) : ChunkRow where
  id := i
  sessionId := "s"
  pdfId := some "doc"
  chunkKey := ""
  text := ""
  embedding := .arr [(i : ℤ) + 1, 1]
  embeddingVectorLength := 2
  createdAt := ""

/-- The 360-vector session corpus, in insertion (= id) order. -/
def c3Table : List ChunkRow := (List.range 360).map c3Chunk

/-- The exact cosine score of the `i`-th corpus vector against `c3Query`:
dot `= i + 1`, query magnitude `1`, candidate magnitude `(i+1)^2 + 1`. -/
def c3Score (i : Nat) : SimScore :=
  SimScore.val ((i : ℤ) + 1) (((i : ℤ) + 1) * ((i : ℤ) + 1) + 1)

/-- The search item produced for the `i`-th corpus vector. -/
def c3Item (i : Nat) : SearchItem := ⟨i, some "doc", "", c3Score i⟩

/-- Cache states reachable while scanning the `c3` corpus: every cached
entry maps a chunk id `k` to that chunk's stored vector `[k+1, 1]`. -/
def C3GoodCache (cache : EmbCache) : Prop :=
  ∀ kv ∈ cache, ∀ e ∈ kv.2, e.2 = [(e.1 : ℤ) + 1, 1]

/-- A small corpus mixing every kind of invalid candidate with one valid,
nonnegative-scoring candidate (id `3`): a malformed payload, a
zero-magnitude vector, a stored vector whose actual length disagrees with
the query length, and a negative-scoring vector. -/
def c7Table : List ChunkRow :=
  [{ id := 0, sessionId := "s", pdfId := none, chunkKey := "", text := "",
     embedding := .malformed, embeddingVectorLength := 2, createdAt := "" },
   { id := 1, sessionId := "s", pdfId := none, chunkKey := "", text := "",
     embedding := .arr [0, 0], embeddingVectorLength := 2, createdAt := "" },
   { id := 2, sessionId := "s", pdfId := none, chunkKey := "", text := "",
     embedding := .arr [5], embeddingVectorLength := 2, createdAt := "" },
   { id := 3, sessionId := "s", pdfId := none, chunkKey := "", text := "",
     embedding := .arr [2, 1], embeddingVectorLength := 2, createdAt := "" },
   { id := 4, sessionId := "s", pdfId := none, chunkKey := "", text := "",
     embedding := .arr [-1, 0], embeddingVectorLength := 2, createdAt := "" }]

/-- Start of the crash-recovery counterexample trace: a job enqueued with
`maxRetries = 1`. -/
def c2start : Job := mkNewJob ⟨.chatQuery, some 1⟩ 0 "t0"

/-- First attempt begins (attempts becomes 1). -/
def c2j1 : Job := beginAttemptJob c2start "t1"

/-- The first attempt fails and is retryable (`1 ≤ maxRetries`). -/
def c2j2 : Job := retryJob (failUpdateJob c2j1 "task failed" "t2")

/-- Second (= final allowed) attempt begins (attempts becomes 2). -/
def c2j3 : Job := beginAttemptJob c2j2 "t3"

/-- The process crashes during the second attempt; recovery rehydrates the
durable `processing` row as `queued` with `attempts = 2` preserved. -/
def c2j4 : Job := recoverHydrate c2j3 "t4"

/-- The recovered job is dequeued again: attempts becomes 3 although
`maxRetries + 1 = 2`. -/
def c2cex : Job := beginAttemptJob c2j4 "t5"

/-! ## Supporting lemmas -/

lemma clamp0100_nonneg (q : ℚ) : 0 ≤ clamp0100 q := le_max_left 0 _

lemma clamp0100_le_hundred (q : ℚ) : clamp0100 q ≤ 100 :=
  max_le (by norm_num) (min_le_left 100 q)

lemma jsOrNat_some_zero (a : Nat) : jsOrNat (some a) 0 = a := by
  cases a <;> rfl

lemma le_jsOrNat_some_three (m : Nat) : m ≤ jsOrNat (some m) 3 := by
  cases m <;> simp [jsOrNat]

lemma updateJobProgress_job_progress (job : Job) (r : ProgressReport) (now : String) :
    (updateJobProgress job r now).job.progress = clamp0100 (jsOrQ r.progress 0) := by
  simp only [updateJobProgress]
  split <;> rfl

lemma updateJobProgress_job_stage (job : Job) (r : ProgressReport) (now : String) :
    (updateJobProgress job r now).job.stage =
      jsStrOr r.stage (jsStrOr job.stage (getDefaultStageByType job.type)) := by
  simp only [updateJobProgress]
  split <;> rfl

lemma updateJobProgress_issuedWrite (job : Job) (r : ProgressReport) (now : String) :
    (updateJobProgress job r now).issuedWrite =
      (decide (job.progress ≠ clamp0100 (jsOrQ r.progress 0)) ||
        decide (job.stage ≠ jsStrOr r.stage (jsStrOr job.stage (getDefaultStageByType job.type)))) := by
  simp only [updateJobProgress]
  split
  · next h => exact h.symm
  · next h => exact (Bool.not_eq_true _).mp h |>.symm

/-! ## Claim C8 -/

/-- C8. Every progress report is clamped into `[0, 100]` before being
stored (a non-numeric report becomes `0`), and `updateJobProgress` issues a
durable write exactly when the clamped progress or the normalized stage
differs from the job's current values — a report changing neither field
performs no durable write. -/
theorem claim8_progress_clamp_and_write_on_change (job : Job) (r : ProgressReport)
    (now : String) :
    (0 ≤ (updateJobProgress job r now).job.progress ∧
      (updateJobProgress job r now).job.progress ≤ 100) ∧
    (r.progress = none → (updateJobProgress job r now).job.progress = 0) ∧
    ((updateJobProgress job r now).issuedWrite = false ↔
      ((updateJobProgress job r now).job.progress = job.progress ∧
        (updateJobProgress job r now).job.stage = job.stage)) := by
  rw [updateJobProgress_job_progress, updateJobProgress_job_stage,
    updateJobProgress_issuedWrite]
  refine ⟨⟨clamp0100_nonneg _, clamp0100_le_hundred _⟩, ?_, ?_⟩
  · intro h
    rw [h]
    simp [jsOrQ, clamp0100]
  · simp only [Bool.or_eq_false_iff, decide_eq_false_iff_not, not_not]
    constructor
    · rintro ⟨h1, h2⟩
      exact ⟨h1.symm, h2.symm⟩
    · rintro ⟨h1, h2⟩
      exact ⟨h1.symm, h2.symm⟩

/-- Witness for C8 at a concrete job and report. -/
theorem claim8_witness :
    (updateJobProgress (mkNewJob ⟨.chatQuery, none⟩ 1 "t") ⟨none, some "x"⟩ "u").job.progress
      = 0 :=
  (claim8_progress_clamp_and_write_on_change (mkNewJob ⟨.chatQuery, none⟩ 1 "t")
    ⟨none, some "x"⟩ "u").2.1 rfl

/-! ## Claim C9 -/

/-- C9. `similaritySearch` clamps the effective `topK` into `[1, 5]` and the
effective `pageSize` into `[50, 1000]` whatever the caller passes, and its
result list never holds more than 5 entries. -/
theorem claim9_topk_pagesize_clamped :
    (∀ t : Option Int, 1 ≤ normalizeTopK t ∧ normalizeTopK t ≤ 5) ∧
    (∀ p : Option Int, 50 ≤ normalizePageSize p ∧ normalizePageSize p ≤ 1000) ∧
    (∀ (table : List ChunkRow) (cache : EmbCache) (args : SearchArgs),
      (similaritySearch table cache args).1.length ≤ 5) := by
  refine ⟨?_, ?_, ?_⟩
  · intro t
    exact ⟨le_max_left 1 _, max_le (by norm_num) (min_le_left 5 _)⟩
  · intro p
    exact ⟨le_max_left 50 _, max_le (by norm_num) (min_le_left 1000 _)⟩
  · intro table cache args
    have htop : (normalizeTopK args.topK).toNat ≤ 5 := by
      have h5 : normalizeTopK args.topK ≤ (5 : Int) :=
        max_le (by norm_num) (min_le_left 5 _)
      omega
    simp only [similaritySearch]
    rcases args.queryEmbedding with _ | q
    · simp
    · simp only []
      split
      · simp
      · calc ((sortByScoreDesc _).take (normalizeTopK args.topK).toNat).length
            ≤ (normalizeTopK args.topK).toNat := by
              rw [List.length_take]
              exact min_le_left _ _
          _ ≤ 5 := htop

/-! ## Claim C10 -/

/-- C10. Rehydration of a durable row (`hydrateJobFromRow`, used both by the
`getJob` durable fallback and by crash recovery) replaces a stored
`maxRetries` of `0`, or a non-numeric one, by `3` — so a job enqueued with
`maxRetries = 0` and reloaded after a restart runs with `maxRetries = 3` —
while stored values `≥ 1` are preserved. -/
theorem claim10_hydrate_maxretries_default :
    (∀ (row : JobRow) (now : String), row.maxRetries = some 0 ∨ row.maxRetries = none →
      (hydrateJobFromRow row now).maxRetries = 3) ∧
    (∀ (row : JobRow) (now : String) (k : Nat), row.maxRetries = some k → 1 ≤ k →
      (hydrateJobFromRow row now).maxRetries = k) ∧
    (∀ (s : QState) (id0 : Nat) (now : String) (row : JobRow),
      lookupJob s.jobs id0 = none → lookupRow s.durable id0 = some row →
      row.maxRetries = some 0 → (getJob s id0 now).map Job.maxRetries = some 3) ∧
    (∀ (pl : JobPayload) (id0 : Nat) (created now : String), pl.maxRetries = some 0 →
      (hydrateJobFromRow (persistRow (mkNewJob pl id0 created)) now).maxRetries = 3) := by
  have hyd0 : ∀ (row : JobRow) (now : String), row.maxRetries = some 0 ∨ row.maxRetries = none →
      (hydrateJobFromRow row now).maxRetries = 3 := by
    intro row now h
    rcases h with h | h <;> simp [hydrateJobFromRow, h, jsOrNat]
  refine ⟨hyd0, ?_, ?_, ?_⟩
  · intro row now k h hk
    rcases k with _ | k
    · omega
    · simp [hydrateJobFromRow, h, jsOrNat]
  · intro s id0 now row hmem hrow h0
    simp only [getJob, hmem, hrow]
    simp [hyd0 row now (Or.inl h0)]
  · intro pl id0 created now h
    have : (mkNewJob pl id0 created).maxRetries = 0 := by
      simp [mkNewJob, normalizeMaxRetries, h]
    apply hyd0
    left
    simp [persistRow, this]

/-- Witness for C10: a job enqueued with `maxRetries = 0` and read back
through the `getJob` durable fallback after a restart (empty in-memory map)
reports `maxRetries = 3`. -/
theorem claim10_witness :
    (getJob ⟨[], [], [persistRow (mkNewJob ⟨.indexPdf, some 0⟩ 1 "t")]⟩ 1 "u").map
      Job.maxRetries = some 3 :=
  claim10_hydrate_maxretries_default.2.2.1 ⟨[], [], [persistRow (mkNewJob ⟨.indexPdf, some 0⟩ 1 "t")]⟩
    1 "u" (persistRow (mkNewJob ⟨.indexPdf, some 0⟩ 1 "t")) rfl (by decide) (by decide)

/-! ## Claim C6 -/

lemma mapDelete_mapSet_fresh (m : List (Nat × Job)) (k : Nat) (v : Job)
    (h : lookupJob m k = none) : mapDelete (mapSet m k v) k = m := by
  induction m with
  | nil => simp [mapSet, mapDelete]
  | cons kv rest ih =>
    obtain ⟨k0, v0⟩ := kv
    by_cases hk : k0 = k
    · simp [lookupJob, hk] at h
    · simp only [lookupJob, hk, if_false] at h
      simp [mapSet, mapDelete, hk, List.filter] at ih ⊢
      simpa [mapDelete, List.filter] using ih h

/-- C6. When the synchronous durable insert fails, `addJob` rolls the job
back out of the in-memory map and throws a 500: the queue state (ready
list, job map, durable store) is left exactly as before the call. -/
theorem claim6_enqueue_rollback_on_persist_failure (s : QState) (pl : JobPayload)
    (newId : Nat) (now : String) (h : lookupJob s.jobs newId = none) :
    (addJob s pl newId false now).1 = s ∧
    (addJob s pl newId false now).2 =
      .error ⟨500, "Failed to enqueue background job."⟩ := by
  constructor
  · simp only [addJob, Bool.false_eq_true, if_false]
    rw [mapDelete_mapSet_fresh s.jobs newId _ h]
  · simp [addJob]

/-- Witness for C6 at a concrete state. -/
theorem claim6_witness :
    (addJob ⟨[3], [(3, mkNewJob ⟨.indexPdf, none⟩ 3 "t")], []⟩ ⟨.chatQuery, some 2⟩ 4
      false "u").1 = ⟨[3], [(3, mkNewJob ⟨.indexPdf, none⟩ 3 "t")], []⟩ :=
  (claim6_enqueue_rollback_on_persist_failure ⟨[3], [(3, mkNewJob ⟨.indexPdf, none⟩ 3 "t")], []⟩
    ⟨.chatQuery, some 2⟩ 4 "u" (by decide)).1

/-! ## Claim C5 -/

/-- C5. `getQueuePosition` returns nothing for an unknown id; `0` for any
job that is not `queued` and for a `queued` job missing from the ready
list; and for a `queued` job at ready-list index `i`, it returns `i` when
no in-memory job is processing and `i + 1` when one is. -/
theorem claim5_queue_position_cases (s : QState) (id0 : Nat) (now : String) :
    (getJob s id0 now = none → getQueuePosition s id0 now = none) ∧
    (∀ j, getJob s id0 now = some j → j.status ≠ .queued →
      getQueuePosition s id0 now = some 0) ∧
    (∀ j, getJob s id0 now = some j → j.status = .queued →
      jsIndexOf s.queue id0 = none → getQueuePosition s id0 now = some 0) ∧
    (∀ j i, getJob s id0 now = some j → j.status = .queued →
      jsIndexOf s.queue id0 = some i → hasProcessingJob s = false →
      getQueuePosition s id0 now = some i) ∧
    (∀ j i, getJob s id0 now = some j → j.status = .queued →
      jsIndexOf s.queue id0 = some i → hasProcessingJob s = true →
      getQueuePosition s id0 now = some (i + 1)) := by
  refine ⟨?_, ?_, ?_, ?_, ?_⟩
  · intro h
    simp [getQueuePosition, h]
  · intro j hj hst
    simp [getQueuePosition, hj, hst]
  · intro j hj hst hidx
    simp [getQueuePosition, hj, hst, hidx]
  · intro j i hj hst hidx hproc
    simp [getQueuePosition, hj, hst, hidx, hproc]
  · intro j i hj hst hidx hproc
    simp [getQueuePosition, hj, hst, hidx, hproc]

/-- Witness for C5: a queued job at ready-list index 0 while another job is
processing sits at position 1. -/
theorem claim5_witness :
    getQueuePosition
      ⟨[7], [(7, mkNewJob ⟨.chatQuery, none⟩ 7 "t"),
             (8, { mkNewJob ⟨.chatQuery, none⟩ 8 "t" with status := .processing })], []⟩
      7 "u" = some 1 :=
  (claim5_queue_position_cases
      ⟨[7], [(7, mkNewJob ⟨.chatQuery, none⟩ 7 "t"),
             (8, { mkNewJob ⟨.chatQuery, none⟩ 8 "t" with status := .processing })], []⟩
      7 "u").2.2.2.2 (mkNewJob ⟨.chatQuery, none⟩ 7 "t") 0 (by decide) (by decide)
      (by decide) (by decide)

/-! ## Claim C1 -/

lemma beginAttemptJob_attempts (j : Job) (now : String) :
    (beginAttemptJob j now).attempts = j.attempts + 1 := by
  cases h : j.type <;> simp [beginAttemptJob, h]

lemma beginAttemptJob_maxRetries (j : Job) (now : String) :
    (beginAttemptJob j now).maxRetries = j.maxRetries := by
  cases h : j.type <;> simp [beginAttemptJob, h]

lemma beginAttemptJob_status (j : Job) (now : String) :
    (beginAttemptJob j now).status = .processing := by
  cases h : j.type <;> simp [beginAttemptJob, h]

lemma failUpdateJob_attempts (j : Job) (msg now : String) :
    (failUpdateJob j msg now).attempts = j.attempts := rfl

lemma failUpdateJob_maxRetries (j : Job) (msg now : String) :
    (failUpdateJob j msg now).maxRetries = j.maxRetries := rfl

lemma failUpdateJob_status (j : Job) (msg now : String) :
    (failUpdateJob j msg now).status = j.status := rfl

lemma retryJob_attempts (j : Job) : (retryJob j).attempts = j.attempts := rfl

lemma retryJob_maxRetries (j : Job) : (retryJob j).maxRetries = j.maxRetries := rfl

lemma retryJob_status (j : Job) : (retryJob j).status = .queued := rfl

lemma failJob_attempts (j : Job) : (failJob j).attempts = j.attempts := rfl

lemma failJob_status (j : Job) : (failJob j).status = .failed := rfl

/-- One unfolding of `runAllFail` in the retry branch. -/
lemma runAllFail_succ_retry (msg now : String) (j : Job) (fuel : Nat)
    (h : j.attempts + 1 ≤ j.maxRetries) :
    runAllFail msg now j (fuel + 1) =
      ((runAllFail msg now (retryJob (failUpdateJob (beginAttemptJob j now) msg now)) fuel).1,
        250 * 2 ^ j.attempts ::
          (runAllFail msg now (retryJob (failUpdateJob (beginAttemptJob j now) msg now)) fuel).2) := by
  have hle : (failUpdateJob (beginAttemptJob j now) msg now).attempts ≤
      (failUpdateJob (beginAttemptJob j now) msg now).maxRetries := by
    rw [failUpdateJob_attempts, beginAttemptJob_attempts, failUpdateJob_maxRetries,
      beginAttemptJob_maxRetries]
    exact h
  rw [runAllFail, if_pos hle, failUpdateJob_attempts, beginAttemptJob_attempts,
    Nat.add_sub_cancel]

/-- One unfolding of `runAllFail` in the terminal branch. -/
lemma runAllFail_succ_fail (msg now : String) (j : Job) (fuel : Nat)
    (h : j.maxRetries < j.attempts + 1) :
    runAllFail msg now j (fuel + 1) =
      (failJob (failUpdateJob (beginAttemptJob j now) msg now), []) := by
  have hgt : ¬ (failUpdateJob (beginAttemptJob j now) msg now).attempts ≤
      (failUpdateJob (beginAttemptJob j now) msg now).maxRetries := by
    rw [failUpdateJob_attempts, beginAttemptJob_attempts, failUpdateJob_maxRetries,
      beginAttemptJob_maxRetries]
    omega
  rw [runAllFail, if_neg hgt]

/-- Behaviour of `runAllFail` below its retry ceiling: starting from a job
with `attempts + fuel = maxRetries`, running with `fuel + 1` attempts of
budget reaches `failed` with exactly `maxRetries + 1` attempts, after
backoffs `250 * 2 ^ (attempts + k)` for `k < fuel`. -/
lemma runAllFail_spec (msg now : String) :
    ∀ (fuel : Nat) (j : Job), j.attempts + fuel = j.maxRetries →
      (runAllFail msg now j (fuel + 1)).1.status = .failed ∧
      (runAllFail msg now j (fuel + 1)).1.attempts = j.maxRetries + 1 ∧
      (runAllFail msg now j (fuel + 1)).2 =
        (List.range fuel).map fun k => 250 * 2 ^ (j.attempts + k) := by
  intro fuel
  induction fuel with
  | zero =>
    intro j hj
    rw [runAllFail_succ_fail msg now j 0 (by omega)]
    refine ⟨failJob_status _, ?_, by simp⟩
    rw [failJob_attempts, failUpdateJob_attempts, beginAttemptJob_attempts]
    omega
  | succ f ih =>
    intro j hj
    rw [runAllFail_succ_retry msg now j (f + 1) (by omega)]
    set j2 := retryJob (failUpdateJob (beginAttemptJob j now) msg now) with hj2
    have ha2 : j2.attempts = j.attempts + 1 := by
      rw [hj2, retryJob_attempts, failUpdateJob_attempts, beginAttemptJob_attempts]
    have hm2 : j2.maxRetries = j.maxRetries := by
      rw [hj2, retryJob_maxRetries, failUpdateJob_maxRetries, beginAttemptJob_maxRetries]
    have hrec := ih j2 (by rw [ha2, hm2]; omega)
    refine ⟨hrec.1, by rw [hrec.2.1, hm2], ?_⟩
    simp only at hrec ⊢
    rw [hrec.2.2, ha2]
    rw [List.range_succ_eq_map, List.map_cons, List.map_map]
    congr 1
    refine List.map_congr_left fun k _ => ?_
    show 250 * 2 ^ (j.attempts + 1 + k) = 250 * 2 ^ (j.attempts + (k + 1))
    have h : j.attempts + 1 + k = j.attempts + (k + 1) := by omega
    rw [h]

/-- C1. A job enqueued with `maxRetries = r` whose task execution throws on
every attempt terminates as `failed` after exactly `r + 1` attempts, with
the backoff before the `k+1`-st retry equal to `250 * 2 ^ k` milliseconds —
a non-decreasing sequence of delays. -/
theorem claim1_retry_exhaustion (r : Nat) (t : JType) (id0 : Nat)
    (created msg now : String) :
    (runAllFail msg now (mkNewJob ⟨t, some (r : Int)⟩ id0 created) (r + 1)).1.status
        = .failed ∧
    (runAllFail msg now (mkNewJob ⟨t, some (r : Int)⟩ id0 created) (r + 1)).1.attempts
        = r + 1 ∧
    (runAllFail msg now (mkNewJob ⟨t, some (r : Int)⟩ id0 created) (r + 1)).2
        = (List.range r).map (fun k => 250 * 2 ^ k) ∧
    List.Pairwise (· ≤ ·)
      ((runAllFail msg now (mkNewJob ⟨t, some (r : Int)⟩ id0 created) (r + 1)).2) := by
  have h0 : (mkNewJob ⟨t, some (r : Int)⟩ id0 created).attempts = 0 := rfl
  have hmr : (mkNewJob ⟨t, some (r : Int)⟩ id0 created).maxRetries = r := by
    simp [mkNewJob, normalizeMaxRetries]
  have hs := runAllFail_spec msg now r (mkNewJob ⟨t, some (r : Int)⟩ id0 created)
    (by rw [h0, hmr]; omega)
  have hback : (runAllFail msg now (mkNewJob ⟨t, some (r : Int)⟩ id0 created) (r + 1)).2
      = (List.range r).map fun k => 250 * 2 ^ k := by
    rw [hs.2.2, h0]
    simp
  refine ⟨hs.1, by rw [hs.2.1, hmr], hback, ?_⟩
  rw [hback]
  rw [List.pairwise_map]
  apply List.Pairwise.imp ?_ (List.pairwise_lt_range r)
  intro a b hab
  exact Nat.mul_le_mul_left 250 (Nat.pow_le_pow_right (by norm_num) (le_of_lt hab))

/-! ## Claim C2 -/

lemma recoverHydrate_attempts (j : Job) (now : String) :
    (recoverHydrate j now).attempts = j.attempts := by
  simp only [recoverHydrate]
  split <;> simp [hydrateJobFromRow, persistRow, jsOrNat_some_zero]

lemma recoverHydrate_maxRetries (j : Job) (now : String) :
    (recoverHydrate j now).maxRetries = jsOrNat (some j.maxRetries) 3 := by
  simp only [recoverHydrate]
  split <;> rfl

lemma recoverHydrate_status (j : Job) (now : String) :
    (recoverHydrate j now).status =
      (if j.status = .processing then .queued else j.status) := by
  simp only [recoverHydrate]
  split <;> rfl

lemma failJob_maxRetries (j : Job) : (failJob j).maxRetries = j.maxRetries := rfl

/-- Every transition of the machine without `processing`-row recovery
preserves the invariant that a queued job has `attempts ≤ maxRetries` and
every job has `attempts ≤ maxRetries + 1`. -/
lemma jstep_false_preserves_bound {a b : Job} (h : JStep false a b)
    (ha1 : a.status = .queued → a.attempts ≤ a.maxRetries)
    (ha2 : a.attempts ≤ a.maxRetries + 1) :
    (b.status = .queued → b.attempts ≤ b.maxRetries) ∧ b.attempts ≤ b.maxRetries + 1 := by
  cases h with
  | begin now hq =>
    constructor
    · intro hb
      rw [beginAttemptJob_status] at hb
      cases hb
    · rw [beginAttemptJob_attempts, beginAttemptJob_maxRetries]
      exact Nat.add_le_add_right (ha1 hq) 1
  | beginPersistFail now hq =>
    constructor
    · intro hb
      cases hb
    · show (beginAttemptJob a now).attempts ≤ (beginAttemptJob a now).maxRetries + 1
      rw [beginAttemptJob_attempts, beginAttemptJob_maxRetries]
      exact Nat.add_le_add_right (ha1 hq) 1
  | complete res now hp =>
    refine ⟨fun hb => ?_, ha2⟩
    cases hb
  | failRetry msg now hp hle =>
    constructor
    · intro _
      rw [retryJob_attempts, retryJob_maxRetries, failUpdateJob_attempts,
        failUpdateJob_maxRetries]
      exact hle
    · rw [retryJob_attempts, retryJob_maxRetries, failUpdateJob_attempts,
        failUpdateJob_maxRetries]
      exact Nat.le_succ_of_le hle
  | retryPersistFail msg now hp hle =>
    constructor
    · intro hb
      cases hb
    · show (retryJob (failUpdateJob a msg now)).attempts ≤
        (retryJob (failUpdateJob a msg now)).maxRetries + 1
      rw [retryJob_attempts, retryJob_maxRetries, failUpdateJob_attempts,
        failUpdateJob_maxRetries]
      exact Nat.le_succ_of_le hle
  | failTerminal msg now hp hgt =>
    constructor
    · intro hb
      rw [failJob_status] at hb
      cases hb
    · rw [failJob_attempts, failJob_maxRetries, failUpdateJob_attempts,
        failUpdateJob_maxRetries]
      exact ha2
  | recoverQueued now hq =>
    have hs : (recoverHydrate a now).status = .queued := by
      rw [recoverHydrate_status, hq]
      simp
    have hmr : a.maxRetries ≤ (recoverHydrate a now).maxRetries := by
      rw [recoverHydrate_maxRetries]
      exact le_jsOrNat_some_three _
    constructor
    · intro _
      rw [recoverHydrate_attempts]
      exact le_trans (ha1 hq) hmr
    · rw [recoverHydrate_attempts]
      exact le_trans (ha1 hq) (le_trans hmr (Nat.le_succ _))
  | recoverProcessing now hallow hp =>
    cases hallow

/-- C2 (amended). In every run of the job state machine that does not
crash-recover an interrupted `processing` row, a job's `attempts` counter
never exceeds `maxRetries + 1`. (As stated — including crash recovery of
`processing` rows — the claim is false; see the counterexample.) -/
theorem claim2_amended_attempts_bound (pl : JobPayload) (id0 : Nat) (created : String)
    (j : Job) (h : Relation.ReflTransGen (JStep false) (mkNewJob pl id0 created) j) :
    j.attempts ≤ j.maxRetries + 1 := by
  have H : (j.status = .queued → j.attempts ≤ j.maxRetries) ∧
      j.attempts ≤ j.maxRetries + 1 := by
    induction h with
    | refl => exact ⟨fun _ => Nat.zero_le _, Nat.zero_le _⟩
    | tail hab hbc ih => exact jstep_false_preserves_bound hbc ih.1 ih.2
  exact H.2

/-- Witness for the amended C2 at the freshly-enqueued job. -/
theorem claim2_amended_witness :
    (mkNewJob ⟨.indexPdf, some 2⟩ 5 "t").attempts ≤
      (mkNewJob ⟨.indexPdf, some 2⟩ 5 "t").maxRetries + 1 :=
  claim2_amended_attempts_bound ⟨.indexPdf, some 2⟩ 5 "t" _ Relation.ReflTransGen.refl

/-- Counterexample to C2 as stated: a job enqueued with `maxRetries = 1`
that fails once, is retried, and is interrupted by a crash during its
second attempt is rehydrated as `queued` with `attempts = 2` preserved;
its next dequeue is a reachable state with `attempts = 3 > maxRetries + 1 = 2`. -/
theorem claim2_counterexample :
    Relation.ReflTransGen (JStep true) c2start c2cex ∧
    c2cex.maxRetries + 1 < c2cex.attempts := by
  constructor
  · have s1 : JStep true c2start c2j1 := JStep.begin c2start "t1" (by decide)
    have s2 : JStep true c2j1 c2j2 :=
      JStep.failRetry c2j1 "task failed" "t2" (by decide) (by decide)
    have s3 : JStep true c2j2 c2j3 := JStep.begin c2j2 "t3" (by decide)
    have s4 : JStep true c2j3 c2j4 :=
      JStep.recoverProcessing c2j3 "t4" rfl (by decide)
    have s5 : JStep true c2j4 c2cex := JStep.begin c2j4 "t5" (by decide)
    exact Relation.ReflTransGen.head s1 (Relation.ReflTransGen.head s2
      (Relation.ReflTransGen.head s3 (Relation.ReflTransGen.head s4
        (Relation.ReflTransGen.single s5))))
  · decide

/-! ## Claim C4 -/

lemma buildChunkRows_map_id (sid : String) (pdf : Option String) (now : String) :
    ∀ (items : List ChunkItem) (ids : List Nat) (idx : Nat),
      ids.length = items.length →
      (buildChunkRows sid pdf now items ids idx).map ChunkRow.id = ids := by
  intro items
  induction items with
  | nil =>
    intro ids idx hlen
    cases ids with
    | nil => rfl
    | cons i is => simp at hlen
  | cons item rest ih =>
    intro ids idx hlen
    cases ids with
    | nil => simp at hlen
    | cons i is =>
      simp only [buildChunkRows, List.map_cons]
      rw [ih is (idx + 1) (by simpa using hlen)]

lemma buildChunkRows_pdfId (sid : String) (pdf : Option String) (now : String) :
    ∀ (items : List ChunkItem) (ids : List Nat) (idx : Nat),
      ∀ r ∈ buildChunkRows sid pdf now items ids idx, r.pdfId = pdf := by
  intro items
  induction items with
  | nil =>
    intro ids idx r hr
    cases ids <;> simp [buildChunkRows] at hr
  | cons item rest ih =>
    intro ids idx r hr
    cases ids with
    | nil => simp [buildChunkRows] at hr
    | cons i is =>
      simp only [buildChunkRows, List.mem_cons] at hr
      rcases hr with hr | hr
      · rw [hr]
      · exact ih is (idx + 1) r hr

lemma insertOrReplaceChunk_fresh (table : List ChunkRow) (row : ChunkRow)
    (h : ∀ c ∈ table, c.id ≠ row.id) :
    insertOrReplaceChunk table row = table ++ [row] := by
  unfold insertOrReplaceChunk
  congr 1
  apply List.filter_eq_self.mpr
  intro c hc
  simpa using h c hc

lemma foldl_insertOrReplaceChunk_fresh :
    ∀ (rows table : List ChunkRow),
      (∀ r ∈ rows, ∀ c ∈ table, c.id ≠ r.id) → (rows.map ChunkRow.id).Nodup →
      rows.foldl insertOrReplaceChunk table = table ++ rows := by
  intro rows
  induction rows with
  | nil => intro table _ _; simp
  | cons r rest ih =>
    intro table hfresh hnd
    simp only [List.foldl_cons]
    rw [insertOrReplaceChunk_fresh table r (hfresh r (List.mem_cons_self r rest))]
    rw [List.map_cons, List.nodup_cons] at hnd
    rw [ih (table ++ [r]) ?_ hnd.2]
    · simp
    · intro r' hr' c hc
      rcases List.mem_append.mp hc with hc | hc
      · exact hfresh r' (List.mem_cons_of_mem r hr') c hc
      · rcases List.mem_singleton.mp hc with rfl
        intro hideq
        exact hnd.1 (hideq ▸ List.mem_map_of_mem ChunkRow.id hr')

lemma countRowsForPdf_append (t1 t2 : List ChunkRow) (p : String) :
    countRowsForPdf (t1 ++ t2) p = countRowsForPdf t1 p + countRowsForPdf t2 p := by
  simp [countRowsForPdf, List.filter_append]

lemma countRowsForPdf_delete (t : List ChunkRow) (p : String) :
    countRowsForPdf (deleteChunksByPdf t (some p)) p = 0 := by
  simp only [countRowsForPdf, deleteChunksByPdf, List.length_eq_zero, List.filter_filter]
  apply List.filter_eq_nil_iff.mpr
  intro c _
  by_cases h : c.pdfId = some p <;> simp [h]

lemma countRowsForPdf_buildChunkRows (sid p now : String) (items : List ChunkItem)
    (ids : List Nat) (idx : Nat) :
    countRowsForPdf (buildChunkRows sid (some p) now items ids idx) p =
      (buildChunkRows sid (some p) now items ids idx).length := by
  unfold countRowsForPdf
  rw [List.filter_eq_self.mpr]
  intro c hc
  simp [buildChunkRows_pdfId sid (some p) now items ids idx c hc]

lemma buildChunkRows_length (sid : String) (pdf : Option String) (now : String) :
    ∀ (items : List ChunkItem) (ids : List Nat) (idx : Nat),
      ids.length = items.length →
      (buildChunkRows sid pdf now items ids idx).length = items.length := by
  intro items ids idx hlen
  have := buildChunkRows_map_id sid pdf now items ids idx hlen
  calc (buildChunkRows sid pdf now items ids idx).length
      = ((buildChunkRows sid pdf now items ids idx).map ChunkRow.id).length :=
        (List.length_map _ _).symm
    _ = ids.length := by rw [this]
    _ = items.length := hlen

/-- The table produced by a replace-mode `addChunks` call whose generated
ids are fresh: the document's old rows deleted, the new rows appended. -/
lemma addChunks_replace_table (store : ChunkStore) (sid p : String)
    (items : List ChunkItem) (ids : List Nat) (now : String) (hp : p ≠ "")
    (hnd : ids.Nodup) (hlen : ids.length = items.length)
    (hfresh : ∀ i ∈ ids, ∀ c ∈ store.table, c.id ≠ i) :
    (addChunks store sid (some p) items true ids now).1.table =
      deleteChunksByPdf store.table (some p) ++
        buildChunkRows sid (some p) now items ids 0 := by
  have htr : strTruthy (some p) = true := by simp [strTruthy, hp]
  simp only [addChunks, htr, Bool.and_self, if_true]
  apply foldl_insertOrReplaceChunk_fresh
  · intro r hr c hc
    have hid : r.id ∈ ids := by
      rw [← buildChunkRows_map_id sid (some p) now items ids 0 hlen]
      exact List.mem_map_of_mem ChunkRow.id hr
    have hcm : c ∈ store.table := List.mem_of_mem_filter hc
    exact hfresh r.id hid c hcm
  · rw [buildChunkRows_map_id sid (some p) now items ids 0 hlen]
    exact hnd

/-- C4. Re-indexing a document with the replace flag deletes the document's
previous rows and inserts the new ones in one transaction, so indexing the
same chunk list twice leaves exactly as many rows for the document as
indexing it once (namely one per chunk). -/
theorem claim4_replace_reindex_idempotent_rowcount (store : ChunkStore) (sid p : String)
    (items : List ChunkItem) (ids1 ids2 : List Nat) (now1 now2 : String) (hp : p ≠ "")
    (hnd1 : ids1.Nodup) (hnd2 : ids2.Nodup)
    (hlen1 : ids1.length = items.length) (hlen2 : ids2.length = items.length)
    (hfresh1 : ∀ i ∈ ids1, ∀ c ∈ store.table, c.id ≠ i)
    (hfresh2 : ∀ i ∈ ids2, ∀ c ∈ store.table, c.id ≠ i)
    (hdisj : ∀ i ∈ ids2, i ∉ ids1) :
    countRowsForPdf
        ((addChunks (addChunks store sid (some p) items true ids1 now1).1 sid (some p)
          items true ids2 now2).1).table p =
      countRowsForPdf ((addChunks store sid (some p) items true ids1 now1).1).table p ∧
    countRowsForPdf ((addChunks store sid (some p) items true ids1 now1).1).table p =
      items.length := by
  have h1 := addChunks_replace_table store sid p items ids1 now1 hp hnd1 hlen1 hfresh1
  have hcount1 : countRowsForPdf
      ((addChunks store sid (some p) items true ids1 now1).1).table p = items.length := by
    rw [h1, countRowsForPdf_append, countRowsForPdf_delete,
      countRowsForPdf_buildChunkRows, buildChunkRows_length sid (some p) now1 items ids1 0 hlen1]
    omega
  have hfresh2' : ∀ i ∈ ids2,
      ∀ c ∈ ((addChunks store sid (some p) items true ids1 now1).1).table, c.id ≠ i := by
    intro i hi c hc
    rw [h1] at hc
    rcases List.mem_append.mp hc with hc | hc
    · exact hfresh2 i hi c (List.mem_of_mem_filter hc)
    · have hid : c.id ∈ ids1 := by
        rw [← buildChunkRows_map_id sid (some p) now1 items ids1 0 hlen1]
        exact List.mem_map_of_mem ChunkRow.id hc
      intro heq
      exact hdisj i hi (heq ▸ hid)
  have h2 := addChunks_replace_table (addChunks store sid (some p) items true ids1 now1).1
    sid p items ids2 now2 hp hnd2 hlen2 hfresh2'
  have hcount2 : countRowsForPdf
      ((addChunks (addChunks store sid (some p) items true ids1 now1).1 sid (some p)
        items true ids2 now2).1).table p = items.length := by
    rw [h2, countRowsForPdf_append, countRowsForPdf_delete,
      countRowsForPdf_buildChunkRows, buildChunkRows_length sid (some p) now2 items ids2 0 hlen2]
    omega
  exact ⟨by rw [hcount1, hcount2], hcount1⟩

/-- Witness for C4: indexing one chunk twice with replace leaves one row. -/
theorem claim4_witness :
    countRowsForPdf
        ((addChunks (addChunks ⟨[], []⟩ "s" (some "d") [⟨none, "hello", some [1, 2]⟩]
          true [10] "t1").1 "s" (some "d") [⟨none, "hello", some [1, 2]⟩] true [11]
          "t2").1).table "d" = 1 := by
  have h := claim4_replace_reindex_idempotent_rowcount ⟨[], []⟩ "s" "d"
    [⟨none, "hello", some [1, 2]⟩] [10] [11] "t1" "t2" (by decide) (by decide) (by decide)
    (by decide) (by decide) (by intro i hi c hc; simp at hc) (by intro i hi c hc; simp at hc)
    (by decide)
  rw [h.1, h.2]
  rfl

/-! ## Claim C7 -/

lemma mem_insertByScoreDesc {x y : SearchItem} :
    ∀ {l : List SearchItem}, x ∈ insertByScoreDesc y l → x = y ∨ x ∈ l := by
  intro l
  induction l with
  | nil =>
    intro h
    simpa [insertByScoreDesc] using h
  | cons z zs ih =>
    simp only [insertByScoreDesc]
    split
    · intro h
      rcases List.mem_cons.mp h with h | h
      · exact Or.inr (h ▸ List.mem_cons_self z zs)
      · rcases ih h with h | h
        · exact Or.inl h
        · exact Or.inr (List.mem_cons_of_mem z h)
    · intro h
      rcases List.mem_cons.mp h with h | h
      · exact Or.inl h
      · exact Or.inr h

lemma mem_sortByScoreDesc {x : SearchItem} :
    ∀ {l : List SearchItem}, x ∈ sortByScoreDesc l → x ∈ l := by
  have main : ∀ (l acc : List SearchItem),
      x ∈ l.foldl (fun acc x => insertByScoreDesc x acc) acc → x ∈ acc ∨ x ∈ l := by
    intro l
    induction l with
    | nil => intro acc h; exact Or.inl h
    | cons y ys ih =>
      intro acc h
      rcases ih (insertByScoreDesc y acc) h with h | h
      · rcases mem_insertByScoreDesc h with h | h
        · exact Or.inr (h ▸ List.mem_cons_self y ys)
        · exact Or.inl h
      · exact Or.inr (List.mem_cons_of_mem y h)

  intro l h
  rcases main l [] h with h | h
  · cases h
  · exact h

lemma mem_mergeTopK_nonneg {x : SearchItem} {a b : List SearchItem} {k : Nat}
    (h : x ∈ mergeTopK a b k) : x.score.nonneg = true := by
  unfold mergeTopK at h
  have h1 : x ∈ sortByScoreDesc ((a ++ b).filter fun item => item.score.nonneg) :=
    List.take_subset k _ h
  have h2 := mem_sortByScoreDesc h1
  exact (List.mem_filter.mp h2).2

lemma searchLoop_all_nonneg (table : List ChunkRow) (sid : String) (q : List ℤ)
    (topK ps total : Nat) :
    ∀ (fuel offset : Nat) (best : List SearchItem) (cache : EmbCache),
      (∀ x ∈ best, x.score.nonneg = true) →
      ∀ x ∈ (searchLoop table sid q topK ps total fuel offset best cache).1,
        x.score.nonneg = true := by
  intro fuel
  induction fuel with
  | zero =>
    intro offset best cache hb x hx
    exact hb x hx
  | succ f ih =>
    intro offset best cache hb x hx
    simp only [searchLoop] at hx
    by_cases hlt : offset < total
    · rw [if_pos hlt] at hx
      by_cases hrows : (pageSelect table sid q.length ps offset).length = 0
      · rw [if_pos hrows] at hx
        exact hb x hx
      · rw [if_neg hrows] at hx
        exact ih _ _ _ (fun y hy => mem_mergeTopK_nonneg hy) x hx
    · rw [if_neg hlt] at hx
      exact hb x hx

/-- C7. Every result of a similarity search scores at least `0`; a
candidate with mismatched vector length or zero magnitude scores invalid;
a candidate whose payload fails to parse as an array (absent a cache hit)
is excluded; and a scan over a corpus mixing all those invalid candidates
with a valid one does not abort — it still returns the valid candidate. -/
theorem claim7_invalid_candidates_excluded :
    (∀ (table : List ChunkRow) (cache : EmbCache) (args : SearchArgs),
      ∀ x ∈ (similaritySearch table cache args).1, x.score.nonneg = true) ∧
    (∀ a b : List ℤ, a.length ≠ b.length →
      cosineSimilarity (some a) (some b) = .invalid) ∧
    (∀ a b : List ℤ, dotProd a a = 0 ∨ dotProd b b = 0 →
      cosineSimilarity (some a) (some b) = .invalid) ∧
    (∀ (cache : EmbCache) (chunk : ChunkRow),
      (chunk.embedding = .malformed ∨ chunk.embedding = .nonArray) →
      (getCachedVector cache chunk.pdfId chunk.id).1 = none →
      (parseVectorForChunk cache chunk).1 = none) ∧
    ((similaritySearch c7Table [] ⟨"s", some [1, 0], some 5, some 50⟩).1 =
      [⟨3, none, "", SimScore.val 2 5⟩]) := by
  refine ⟨?_, ?_, ?_, ?_, by decide⟩
  · intro table cache args x hx
    unfold similaritySearch at hx
    rcases hqe : args.queryEmbedding with _ | q
    · rw [hqe] at hx
      simp at hx
    · rw [hqe] at hx
      simp only at hx
      split at hx
      · simp at hx
      · have h1 := mem_sortByScoreDesc (List.take_subset _ _ hx)
        exact searchLoop_all_nonneg table args.sessionId q _ _ _ _ _ [] cache
          (by intro y hy; cases hy) x h1
  · intro a b hlen
    simp [cosineSimilarity, hlen]
  · intro a b hmag
    simp only [cosineSimilarity]
    by_cases hlen : a.length = b.length
    · simp [hlen, hmag]
    · simp [hlen]
  · intro cache chunk hemb hmiss
    unfold parseVectorForChunk
    rcases hg : getCachedVector cache chunk.pdfId chunk.id with ⟨v, cache1⟩
    rw [hg] at hmiss
    simp only at hmiss
    subst hmiss
    rcases hemb with h | h <;> simp [h]

/-- Witness for C7: the one result of the mixed-corpus scan scores at
least zero. -/
theorem claim7_witness :
    SimScore.nonneg (SimScore.val 2 5) = true :=
  claim7_invalid_candidates_excluded.1 c7Table [] ⟨"s", some [1, 0], some 5, some 50⟩
    ⟨3, none, "", SimScore.val 2 5⟩
    (by rw [claim7_invalid_candidates_excluded.2.2.2.2]; exact List.mem_singleton.mpr rfl)

/-! ## Correctness of the exact score encoding

These lemmas justify `SimScore` as an exact representation of the real
scores the code computes: on valid scores (positive magnitude product,
which holds for every score `cosineSimilarity` constructs), `nonneg`
computes the sign of the represented real number and `leb` computes the
real order — so the pipeline's filters and sorts behave exactly as they
would on the real values `dot / sqrt mag`. -/

lemma SimScore.nonneg_iff_toReal (d m : ℤ) (hm : 0 < m) :
    (SimScore.val d m).nonneg = true ↔ 0 ≤ (SimScore.val d m).toReal := by
  have hs : (0 : ℝ) < Real.sqrt (m : ℝ) := Real.sqrt_pos.mpr (by exact_mod_cast hm)
  simp only [SimScore.nonneg, decide_eq_true_eq, SimScore.toReal]
  constructor
  · intro h
    exact div_nonneg (by exact_mod_cast h) hs.le
  · intro h
    have := (le_div_iff₀ hs).mp h
    rw [zero_mul] at this
    exact_mod_cast this

lemma SimScore.leb_iff_toReal (d1 m1 d2 m2 : ℤ) (h1 : 0 < m1) (h2 : 0 < m2) :
    ((SimScore.val d1 m1).leb (SimScore.val d2 m2) = true) ↔
      (SimScore.val d1 m1).toReal ≤ (SimScore.val d2 m2).toReal := by
  have hs1 : (0 : ℝ) < Real.sqrt (m1 : ℝ) := Real.sqrt_pos.mpr (by exact_mod_cast h1)
  have hs2 : (0 : ℝ) < Real.sqrt (m2 : ℝ) := Real.sqrt_pos.mpr (by exact_mod_cast h2)
  have hm1 := Real.mul_self_sqrt (show (0 : ℝ) ≤ (m1 : ℝ) by positivity)
  have hm2 := Real.mul_self_sqrt (show (0 : ℝ) ≤ (m2 : ℝ) by positivity)
  have hsq1 : ((d1 : ℝ) * Real.sqrt (m2 : ℝ)) * ((d1 : ℝ) * Real.sqrt (m2 : ℝ)) =
      (d1 : ℝ) * d1 * (m2 : ℝ) := by
    calc ((d1 : ℝ) * Real.sqrt (m2 : ℝ)) * ((d1 : ℝ) * Real.sqrt (m2 : ℝ))
        = (d1 : ℝ) * d1 * (Real.sqrt (m2 : ℝ) * Real.sqrt (m2 : ℝ)) := by ring
      _ = (d1 : ℝ) * d1 * (m2 : ℝ) := by rw [hm2]
  have hsq2 : ((d2 : ℝ) * Real.sqrt (m1 : ℝ)) * ((d2 : ℝ) * Real.sqrt (m1 : ℝ)) =
      (d2 : ℝ) * d2 * (m1 : ℝ) := by
    calc ((d2 : ℝ) * Real.sqrt (m1 : ℝ)) * ((d2 : ℝ) * Real.sqrt (m1 : ℝ))
        = (d2 : ℝ) * d2 * (Real.sqrt (m1 : ℝ) * Real.sqrt (m1 : ℝ)) := by ring
      _ = (d2 : ℝ) * d2 * (m1 : ℝ) := by rw [hm1]
  have hdiv : (SimScore.val d1 m1).toReal ≤ (SimScore.val d2 m2).toReal ↔
      (d1 : ℝ) * Real.sqrt (m2 : ℝ) ≤ (d2 : ℝ) * Real.sqrt (m1 : ℝ) := by
    simp only [SimScore.toReal]
    exact div_le_div_iff₀ hs1 hs2
  simp only [SimScore.leb]
  by_cases hd1 : (0 : ℤ) ≤ d1
  · rw [if_pos hd1]
    by_cases hd2 : (0 : ℤ) ≤ d2
    · have hL : (0 : ℝ) ≤ (d1 : ℝ) * Real.sqrt (m2 : ℝ) :=
        mul_nonneg (by exact_mod_cast hd1) hs2.le
      have hR : (0 : ℝ) ≤ (d2 : ℝ) * Real.sqrt (m1 : ℝ) :=
        mul_nonneg (by exact_mod_cast hd2) hs1.le
      rw [hdiv, mul_self_le_mul_self_iff hL hR, hsq1, hsq2]
      simp only [hd2, Bool.and_eq_true, decide_eq_true_eq, true_and]
      constructor
      · intro h
        exact_mod_cast h
      · intro h
        exact_mod_cast h
    · have hneg : (d2 : ℝ) < 0 := by exact_mod_cast (Int.not_le.mp hd2)
      have hlt : (d2 : ℝ) * Real.sqrt (m1 : ℝ) < (d1 : ℝ) * Real.sqrt (m2 : ℝ) :=
        lt_of_lt_of_le (mul_neg_of_neg_of_pos hneg hs1)
          (mul_nonneg (by exact_mod_cast hd1) hs2.le)
      rw [hdiv]
      simp only [hd2, Bool.and_eq_true, decide_eq_true_eq, false_and]
      exact ⟨fun h => h.elim, fun h => absurd h (not_le.mpr hlt)⟩
  · rw [if_neg hd1]
    by_cases hd2 : (0 : ℤ) ≤ d2
    · rw [if_pos hd2]
      have hd1n : (d1 : ℝ) < 0 := by exact_mod_cast (Int.not_le.mp hd1)
      have hle : (d1 : ℝ) * Real.sqrt (m2 : ℝ) ≤ (d2 : ℝ) * Real.sqrt (m1 : ℝ) :=
        le_trans (mul_neg_of_neg_of_pos hd1n hs2).le
          (mul_nonneg (by exact_mod_cast hd2) hs1.le)
      rw [hdiv]
      simp [hle]
    · rw [if_neg hd2]
      have hd1n : (d1 : ℝ) < 0 := by exact_mod_cast (Int.not_le.mp hd1)
      have hd2n : (d2 : ℝ) < 0 := by exact_mod_cast (Int.not_le.mp hd2)
      have hL : (0 : ℝ) ≤ -((d2 : ℝ) * Real.sqrt (m1 : ℝ)) := by
        rw [neg_nonneg]
        exact (mul_neg_of_neg_of_pos hd2n hs1).le
      have hR : (0 : ℝ) ≤ -((d1 : ℝ) * Real.sqrt (m2 : ℝ)) := by
        rw [neg_nonneg]
        exact (mul_neg_of_neg_of_pos hd1n hs2).le
      have hneg : ((d1 : ℝ) * Real.sqrt (m2 : ℝ) ≤ (d2 : ℝ) * Real.sqrt (m1 : ℝ)) ↔
          (-((d2 : ℝ) * Real.sqrt (m1 : ℝ)) ≤ -((d1 : ℝ) * Real.sqrt (m2 : ℝ))) :=
        neg_le_neg_iff.symm
      have hsqneg : (-((d2 : ℝ) * Real.sqrt (m1 : ℝ))) * (-((d2 : ℝ) * Real.sqrt (m1 : ℝ))) =
          (d2 : ℝ) * d2 * (m1 : ℝ) := by
        rw [neg_mul_neg, hsq2]
      have hsqneg' : (-((d1 : ℝ) * Real.sqrt (m2 : ℝ))) * (-((d1 : ℝ) * Real.sqrt (m2 : ℝ))) =
          (d1 : ℝ) * d1 * (m2 : ℝ) := by
        rw [neg_mul_neg, hsq1]
      rw [hdiv, hneg, mul_self_le_mul_self_iff hL hR, hsqneg, hsqneg']
      simp only [decide_eq_true_eq]
      constructor
      · intro h
        exact_mod_cast h
      · intro h
        exact_mod_cast h

/-! ## Claim C3 -/

lemma c3_cosine (i : Nat) :
    cosineSimilarity (some c3Query) (some [(i : ℤ) + 1, 1]) = c3Score i := by
  have hmagB : ((i : ℤ) + 1) * ((i : ℤ) + 1) + 1 ≠ 0 := by positivity
  simp only [cosineSimilarity, c3Query, dotProd, c3Score]
  norm_num
  exact fun h => absurd h hmagB

lemma c3_leb_false {i j : Nat} (h : i < j) :
    SimScore.leb (c3Score j) (c3Score i) = false := by
  set a : ℤ := (i : ℤ) + 1 with ha
  set b : ℤ := (j : ℤ) + 1 with hb
  have hab : a < b := by omega
  have ha0 : 0 ≤ a := by positivity
  have hb0 : (0 : ℤ) ≤ b := by positivity
  have hsq : a * a < b * b := mul_self_lt_mul_self ha0 hab
  have hkey : ¬ (b * b * (a * a + 1) ≤ a * a * (b * b + 1)) := by nlinarith
  simp only [c3Score, SimScore.leb]
  rw [if_pos hb0]
  simp [hkey]

lemma c3_leb_true {i j : Nat} (h : i ≤ j) :
    SimScore.leb (c3Score i) (c3Score j) = true := by
  set a : ℤ := (i : ℤ) + 1 with ha
  set b : ℤ := (j : ℤ) + 1 with hb
  have hab : a ≤ b := by omega
  have ha0 : (0 : ℤ) ≤ a := by positivity
  have hb0 : (0 : ℤ) ≤ b := by positivity
  have hsq : a * a ≤ b * b := mul_self_le_mul_self ha0 hab
  have hkey : a * a * (b * b + 1) ≤ b * b * (a * a + 1) := by nlinarith
  simp only [c3Score, SimScore.leb]
  rw [if_pos ha0]
  simp [hb0, hkey]

lemma c3Item_nonneg (i : Nat) : (c3Item i).score.nonneg = true := by
  simp only [c3Item, c3Score, SimScore.nonneg, decide_eq_true_eq]
  positivity

lemma cacheLookup_mem : ∀ {c : EmbCache} {k : String} {pc : ChunkCache},
    cacheLookup c k = some pc → (k, pc) ∈ c := by
  intro c
  induction c with
  | nil => intro k pc h; cases h
  | cons kv rest ih =>
    intro k pc h
    obtain ⟨k0, v0⟩ := kv
    simp only [cacheLookup] at h
    split at h
    · next heq =>
      cases h
      exact heq ▸ List.mem_cons_self _ _
    · exact List.mem_cons_of_mem _ (ih h)

lemma chunkLookup_mem : ∀ {pc : ChunkCache} {k : Nat} {v : List ℤ},
    chunkLookup pc k = some v → (k, v) ∈ pc := by
  intro pc
  induction pc with
  | nil => intro k v h; cases h
  | cons kv rest ih =>
    intro k v h
    obtain ⟨k0, v0⟩ := kv
    simp only [chunkLookup] at h
    split at h
    · next heq =>
      cases h
      exact heq ▸ List.mem_cons_self _ _
    · exact List.mem_cons_of_mem _ (ih h)

lemma c3Good_nil : C3GoodCache [] := by
  intro kv hkv
  cases hkv

lemma c3Good_getCachedVector_value {cache : EmbCache} (hg : C3GoodCache cache)
    (pdfId : Option String) (chunkId : Nat) {v : List ℤ}
    (h : (getCachedVector cache pdfId chunkId).1 = some v) :
    v = [(chunkId : ℤ) + 1, 1] := by
  simp only [getCachedVector] at h
  split at h
  · cases h
  · next pc hl =>
    split at h
    · cases h
    · next w hcl =>
      simp only at h
      cases h
      exact hg _ (cacheLookup_mem hl) _ (chunkLookup_mem hcl)

lemma c3Good_getCachedVector_cache {cache : EmbCache} (hg : C3GoodCache cache)
    (pdfId : Option String) (chunkId : Nat) :
    C3GoodCache (getCachedVector cache pdfId chunkId).2 := by
  simp only [getCachedVector]
  split
  · exact hg
  · next pc hl =>
    split
    · exact hg
    · next w hcl =>
      simp only
      intro kv hkv e he
      rcases List.mem_append.mp hkv with hkv | hkv
      · exact hg kv (List.mem_of_mem_filter hkv) e he
      · rcases List.mem_singleton.mp hkv with rfl
        rcases List.mem_append.mp he with he | he
        · exact hg _ (cacheLookup_mem hl) e (List.mem_of_mem_filter he)
        · rcases List.mem_singleton.mp he with rfl
          exact hg _ (cacheLookup_mem hl) _ (chunkLookup_mem hcl)

set_option maxRecDepth 4000 in
lemma c3Good_setPdfChunkCache {cache : EmbCache} (hg : C3GoodCache cache)
    (pdfId : Option String) (chunkId : Nat) :
    C3GoodCache (setPdfChunkCache cache pdfId chunkId [(chunkId : ℤ) + 1, 1]) := by
  simp only [setPdfChunkCache, trimToCap]
  intro kv hkv e he
  have hkv' := List.drop_subset _ _ hkv
  rcases List.mem_append.mp hkv' with hkv' | hkv'
  · exact hg kv (List.mem_of_mem_filter hkv') e he
  · rcases List.mem_singleton.mp hkv' with rfl
    have he' := List.drop_subset _ _ he
    rcases List.mem_append.mp he' with he' | he'
    · rcases hl : cacheLookup cache (normPdfId pdfId) with _ | pc
      · rw [hl] at he'
        cases List.mem_of_mem_filter he'
      · rw [hl] at he'
        exact hg _ (cacheLookup_mem hl) e (List.mem_of_mem_filter he')
    · rcases List.mem_singleton.mp he' with rfl
      rfl

/-- Parsing any `c3` chunk from any reachable cache yields that chunk's
stored vector (a cache hit returns the same value the payload parses to)
and leaves the cache reachable. -/
lemma c3_parseVectorForChunk (i : Nat) (cache : EmbCache) (hg : C3GoodCache cache) :
    ∃ cache1, parseVectorForChunk cache (c3Chunk i) = (some [(i : ℤ) + 1, 1], cache1) ∧
      C3GoodCache cache1 := by
  simp only [parseVectorForChunk]
  rcases hget : getCachedVector cache (c3Chunk i).pdfId (c3Chunk i).id with ⟨v?, cache1⟩
  have hc1 : C3GoodCache cache1 := by
    have := c3Good_getCachedVector_cache hg (c3Chunk i).pdfId (c3Chunk i).id
    rw [hget] at this
    exact this
  rcases v? with _ | v
  · refine ⟨setPdfChunkCache cache1 (c3Chunk i).pdfId (c3Chunk i).id [(i : ℤ) + 1, 1], ?_, ?_⟩
    · simp [c3Chunk]
    · have := c3Good_setPdfChunkCache hc1 (c3Chunk i).pdfId (c3Chunk i).id
      simpa [c3Chunk] using this
  · have hv : v = [(i : ℤ) + 1, 1] := by
      have := c3Good_getCachedVector_value hg (c3Chunk i).pdfId (c3Chunk i).id
        (v := v) (by rw [hget])
      simpa [c3Chunk] using this
    exact ⟨cache1, by simp [hv], hc1⟩

/-- Scoring a page of `c3` chunks from a reachable cache yields exactly the
corresponding items, and another reachable cache. -/
lemma c3_scorePage : ∀ (is : List Nat) (cache : EmbCache), C3GoodCache cache →
    ∃ cache1, scorePage c3Query (is.map c3Chunk) cache = (is.map c3Item, cache1) ∧
      C3GoodCache cache1 := by
  intro is
  induction is with
  | nil =>
    intro cache hg
    exact ⟨cache, rfl, hg⟩
  | cons i rest ih =>
    intro cache hg
    obtain ⟨cache1, hp, hg1⟩ := c3_parseVectorForChunk i cache hg
    obtain ⟨cache2, hs, hg2⟩ := ih cache1 hg1
    refine ⟨cache2, ?_, hg2⟩
    simp only [List.map_cons, scorePage, hp, hs]
    have hcos := c3_cosine i
    have hnn := c3Item_nonneg i
    simp only [c3Item] at hnn
    simp [c3Chunk, hcos, hnn, c3Item]

lemma insertByScoreDesc_front {x : SearchItem} {acc : List SearchItem}
    (h : ∀ y ∈ acc, SimScore.leb x.score y.score = false) :
    insertByScoreDesc x acc = x :: acc := by
  cases acc with
  | nil => rfl
  | cons y ys =>
    simp [insertByScoreDesc, h y (List.mem_cons_self y ys)]

/-- Folding the stable descending insertion over a strictly ascending list
reverses it (each new item strictly beats everything inserted before). -/
lemma foldl_insert_strictAsc :
    ∀ (l acc : List SearchItem),
      l.Pairwise (fun a b => SimScore.leb b.score a.score = false) →
      (∀ x ∈ l, ∀ y ∈ acc, SimScore.leb x.score y.score = false) →
      l.foldl (fun acc x => insertByScoreDesc x acc) acc = l.reverse ++ acc := by
  intro l
  induction l with
  | nil =>
    intro acc _ _
    simp
  | cons x t ih =>
    intro acc hpw hcross
    rw [List.pairwise_cons] at hpw
    simp only [List.foldl_cons]
    rw [insertByScoreDesc_front (hcross x (List.mem_cons_self x t))]
    rw [ih (x :: acc) hpw.2 ?_]
    · simp
    · intro z hz y hy
      rcases List.mem_cons.mp hy with rfl | hy
      · exact hpw.1 z hz
      · exact hcross z (List.mem_cons_of_mem x hz) y hy

lemma sortByScoreDesc_strictAsc (l : List SearchItem)
    (h : l.Pairwise (fun a b => SimScore.leb b.score a.score = false)) :
    sortByScoreDesc l = l.reverse := by
  unfold sortByScoreDesc
  rw [foldl_insert_strictAsc l [] h (by intro x _ y hy; cases hy)]
  simp

/-- The top-1 merge of a running best (empty, or the best of some earlier
prefix) with a page of strictly later `c3` items returns the page's last
item — the global best seen so far. -/
lemma c3_mergeTopK_one (b : List SearchItem) (a k : Nat) (hk : k ≠ 0)
    (hb : b = [] ∨ ∃ m, m < a ∧ b = [c3Item m]) :
    mergeTopK b ((List.range' a k).map c3Item) 1 = [c3Item (a + k - 1)] := by
  obtain ⟨k', rfl⟩ : ∃ k', k = k' + 1 := ⟨k - 1, by omega⟩
  set l := (List.range' a (k' + 1)).map c3Item with hl
  have hfil : (b ++ l).filter (fun item => item.score.nonneg) = b ++ l := by
    apply List.filter_eq_self.mpr
    intro x hx
    rcases List.mem_append.mp hx with hx | hx
    · rcases hb with rfl | ⟨m, _, rfl⟩
      · cases hx
      · rcases List.mem_singleton.mp hx with rfl
        exact c3Item_nonneg m
    · obtain ⟨j, hj, rfl⟩ := List.mem_map.mp (hl ▸ hx)
      exact c3Item_nonneg j
  have hpl : l.Pairwise (fun x y => SimScore.leb y.score x.score = false) := by
    rw [hl, List.pairwise_map]
    apply List.Pairwise.imp ?_ (List.pairwise_lt_range' a (k' + 1) 1)
    intro i j hij
    exact c3_leb_false hij
  have hpw : (b ++ l).Pairwise (fun x y => SimScore.leb y.score x.score = false) := by
    rw [List.pairwise_append]
    refine ⟨?_, hpl, ?_⟩
    · rcases hb with rfl | ⟨m, _, rfl⟩ <;> simp
    · intro x hx y hy
      rcases hb with rfl | ⟨m, hm, rfl⟩
      · cases hx
      · rcases List.mem_singleton.mp hx with rfl
        obtain ⟨j, hj, rfl⟩ := List.mem_map.mp (hl ▸ hy)
        have haj : a ≤ j := (List.mem_range'_1.mp hj).1
        exact c3_leb_false (by omega)
  have hrev : l.reverse = c3Item (a + k') :: ((List.range' a k').map c3Item).reverse := by
    rw [hl, List.range'_concat]
    simp
  unfold mergeTopK
  rw [hfil, sortByScoreDesc_strictAsc _ hpw, List.reverse_append, hrev, List.cons_append]
  simp only [List.take_succ_cons, List.take_zero]
  have harith : a + k' = a + (k' + 1) - 1 := by omega
  rw [harith]

lemma range'_drop : ∀ (m s n : Nat), (List.range' s n).drop m = List.range' (s + m) (n - m) := by
  intro m
  induction m with
  | zero =>
    intro s n
    simp
  | succ m ih =>
    intro s n
    cases n with
    | zero => simp
    | succ n =>
      rw [List.range'_succ s n 1, List.drop_succ_cons, ih (s + 1) n]
      congr 1 <;> omega

lemma range'_take : ∀ (m s n : Nat), m ≤ n → (List.range' s n).take m = List.range' s m := by
  intro m
  induction m with
  | zero =>
    intro s n _
    simp
  | succ m ih =>
    intro s n h
    cases n with
    | zero => omega
    | succ n =>
      rw [List.range'_succ s n 1, List.take_succ_cons, ih (s + 1) n (by omega),
        List.range'_succ s m 1]

lemma c3_count : countChunksBySession c3Table "s" = 360 := by
  unfold countChunksBySession c3Table
  rw [List.filter_eq_self.mpr]
  · simp
  · intro c hc
    obtain ⟨i, _, rfl⟩ := List.mem_map.mp hc
    simp [c3Chunk]

lemma c3_pageSelect (off n : Nat) (hn : min 100 (360 - off) = n) :
    pageSelect c3Table "s" c3Query.length 100 off = (List.range' off n).map c3Chunk := by
  unfold pageSelect
  rw [List.filter_eq_self.mpr]
  · rw [show c3Table = (List.range' 0 360).map c3Chunk from by
      rw [c3Table, List.range_eq_range' 360]]
    rw [← List.map_drop, range'_drop, Nat.zero_add]
    rcases le_or_lt 100 (360 - off) with hle | hlt
    · rw [Nat.min_eq_left hle] at hn
      rw [← List.map_take, range'_take 100 off (360 - off) hle, hn]
    · rw [Nat.min_eq_right hlt.le] at hn
      rw [List.take_of_length_le, hn]
      simp
      omega
  · intro c hc
    obtain ⟨i, _, rfl⟩ := List.mem_map.mp hc
    simp [c3Chunk, c3Query]

lemma searchLoop_exit (table : List ChunkRow) (sid : String) (q : List ℤ)
    (k p tot fuel off : Nat) (best : List SearchItem) (cache : EmbCache)
    (h : ¬ off < tot) :
    searchLoop table sid q k p tot fuel off best cache = (best, cache) := by
  cases fuel with
  | zero => rfl
  | succ f => simp [searchLoop, h]

lemma searchLoop_step (table : List ChunkRow) (sid : String) (q : List ℤ)
    (k p tot fuel off : Nat) (best : List SearchItem) (cache : EmbCache)
    (hf : fuel ≠ 0) (hlt : off < tot)
    (hne : (pageSelect table sid q.length p off).length ≠ 0) :
    searchLoop table sid q k p tot fuel off best cache =
      searchLoop table sid q k p tot (fuel - 1)
        (off + (pageSelect table sid q.length p off).length)
        (mergeTopK best (scorePage q (pageSelect table sid q.length p off) cache).1 k)
        (scorePage q (pageSelect table sid q.length p off) cache).2 := by
  obtain ⟨f, rfl⟩ := Nat.exists_eq_succ_of_ne_zero hf
  simp only [Nat.succ_sub_one, searchLoop, hlt, if_true, hne, if_false]

/-- C3. Over the 360-vector corpus whose unique best-scoring vector under
cosine similarity is the 360th inserted (first conjunct: it strictly beats
every earlier candidate), a search with `topK = 1` and `pageSize = 100`
returns exactly that one vector: the paged top-K merge beats
page-size-confined results. -/
theorem claim3_multipage_merge_returns_global_best :
    (∀ i : Nat, i < 359 →
      SimScore.leb (cosineSimilarity (some c3Query) (some [(i : ℤ) + 1, 1]))
          (cosineSimilarity (some c3Query) (some [360, 1])) = true ∧
      SimScore.leb (cosineSimilarity (some c3Query) (some [360, 1]))
          (cosineSimilarity (some c3Query) (some [(i : ℤ) + 1, 1])) = false) ∧
    (similaritySearch c3Table [] ⟨"s", some c3Query, some 1, some 100⟩).1 =
      [{ chunkId := 359, pdfId := some "doc", text := "",
         score := SimScore.val 360 129601 }] := by
  have h360 : cosineSimilarity (some c3Query) (some [(360 : ℤ), 1]) = c3Score 359 := by
    have h := c3_cosine 359
    norm_num at h
    exact h
  constructor
  · intro i hi
    rw [c3_cosine i, h360]
    exact ⟨c3_leb_true (by omega), c3_leb_false (by omega)⟩
  · have hp0 : pageSelect c3Table "s" c3Query.length 100 0 =
        (List.range' 0 100).map c3Chunk := c3_pageSelect 0 100 (by norm_num)
    have hp1 : pageSelect c3Table "s" c3Query.length 100 100 =
        (List.range' 100 100).map c3Chunk := c3_pageSelect 100 100 (by norm_num)
    have hp2 : pageSelect c3Table "s" c3Query.length 100 200 =
        (List.range' 200 100).map c3Chunk := c3_pageSelect 200 100 (by norm_num)
    have hp3 : pageSelect c3Table "s" c3Query.length 100 300 =
        (List.range' 300 60).map c3Chunk := c3_pageSelect 300 60 (by norm_num)
    obtain ⟨d1, hs1, hg1⟩ := c3_scorePage (List.range' 0 100) [] c3Good_nil
    obtain ⟨d2, hs2, hg2⟩ := c3_scorePage (List.range' 100 100) d1 hg1
    obtain ⟨d3, hs3, hg3⟩ := c3_scorePage (List.range' 200 100) d2 hg2
    obtain ⟨d4, hs4, _⟩ := c3_scorePage (List.range' 300 60) d3 hg3
    have hm1 : mergeTopK [] ((List.range' 0 100).map c3Item) 1 = [c3Item 99] := by
      have h := c3_mergeTopK_one [] 0 100 (by norm_num) (Or.inl rfl)
      norm_num at h
      exact h
    have hm2 : mergeTopK [c3Item 99] ((List.range' 100 100).map c3Item) 1 =
        [c3Item 199] := by
      have h := c3_mergeTopK_one [c3Item 99] 100 100 (by norm_num)
        (Or.inr ⟨99, by norm_num, rfl⟩)
      norm_num at h
      exact h
    have hm3 : mergeTopK [c3Item 199] ((List.range' 200 100).map c3Item) 1 =
        [c3Item 299] := by
      have h := c3_mergeTopK_one [c3Item 199] 200 100 (by norm_num)
        (Or.inr ⟨199, by norm_num, rfl⟩)
      norm_num at h
      exact h
    have hm4 : mergeTopK [c3Item 299] ((List.range' 300 60).map c3Item) 1 =
        [c3Item 359] := by
      have h := c3_mergeTopK_one [c3Item 299] 300 60 (by norm_num)
        (Or.inr ⟨299, by norm_num, rfl⟩)
      norm_num at h
      exact h
    have hloop : searchLoop c3Table "s" c3Query 1 100 360 (360 + 1) 0 [] [] =
        ([c3Item 359], d4) := by
      rw [searchLoop_step c3Table "s" c3Query 1 100 360 (360 + 1) 0 [] []
        (by norm_num) (by norm_num) (by rw [hp0]; simp)]
      rw [hp0, hs1]
      simp only [hm1, List.length_map, List.length_range']
      norm_num
      rw [searchLoop_step c3Table "s" c3Query 1 100 360 360 100 [c3Item 99] d1
        (by norm_num) (by norm_num) (by rw [hp1]; simp)]
      rw [hp1, hs2]
      simp only [hm2, List.length_map, List.length_range']
      norm_num
      rw [searchLoop_step c3Table "s" c3Query 1 100 360 359 200 [c3Item 199] d2
        (by norm_num) (by norm_num) (by rw [hp2]; simp)]
      rw [hp2, hs3]
      simp only [hm3, List.length_map, List.length_range']
      norm_num
      rw [searchLoop_step c3Table "s" c3Query 1 100 360 358 300 [c3Item 299] d3
        (by norm_num) (by norm_num) (by rw [hp3]; simp)]
      rw [hp3, hs4]
      simp only [hm4, List.length_map, List.length_range']
      norm_num
      exact searchLoop_exit c3Table "s" c3Query 1 100 360 357 360 [c3Item 359] d4
        (by norm_num)
    have hK : (normalizeTopK (some 1)).toNat = 1 := by decide
    have hP : (normalizePageSize (some 100)).toNat = 100 := by decide
    have hq0 : ¬ (c3Query.length = 0 ∨ countChunksBySession c3Table "s" = 0) := by
      rw [c3_count]
      simp [c3Query]
    simp only [similaritySearch, hK, hP, c3_count, hq0, if_false]
    rw [hloop]
    simp only [sortByScoreDesc, List.foldl_cons, List.foldl_nil, insertByScoreDesc]
    norm_num [c3Item, c3Score]
    simp [c3Query]

end StudyRag
